import Mathlib

/-!
# Entity I/O dispatch of `ABaseEntity` (HL2Runtime)

A shallow embedding of `Source/HL2Runtime/Private/BaseEntity.cpp` and of the
declarations it uses from `Source/HL2Runtime/Public/BaseEntity.h`.

Modelling conventions.

* `FName` is an engine type; only `==` is used on it.  A name is modelled by
  the string that identifies it, and `==` by equality of these strings (where
  the engine identifies two spellings, one string stands for both).
* `ABaseEntity*` is modelled by `Option EntityId`; `nullptr` is `none`.
  Containers of pointers obtained from the engine (`targets`) hold non-null
  entities.
* `TArray<T>` is a `List T`; `operator[]` outside `0 .. Num()-1` is the fault
  `Fault.outOfRange`; `Reserve` only changes capacity and is not modelled.
* `float`: `Delay` is only stored, never computed with; it is carried as the
  rational number the float denotes, and `FCString::Atof` is a parameter.
* Recursion between `FireInput` and `FireOutput` is bounded by a fuel argument
  that counts nested `FireOutput` activations.
-/

namespace HL2Runtime

/-- Engine name type, identified by its text. -/
abbrev FName := String

/-- Identity of an entity (the address an `ABaseEntity*` holds). -/
abbrev EntityId := Nat

/-- Ways in which a run of the embedded code fails to produce a result. -/
inductive Fault where
  | outOfRange
  | outOfFuel
  deriving DecidableEq, Repr

/-- The struct `FEntityLogicOutput` of `BaseEntity.h`. -/
structure FEntityLogicOutput where
  TargetName : FName
  OutputName : FName
  InputName : FName
  Delay : ℚ
  Once : Bool
  Params : List String
  deriving DecidableEq, Repr

/-! ## Special target names (file-level statics of `BaseEntity.cpp`) -/

def tnActivator : FName := "!activator"
def tnCaller : FName := "!caller"
def tnSelf : FName := "!self"
def tnPlayer : FName := "!player"
def tnPVSPlayer : FName := "!pvsplayer"
def tnSpeechTarget : FName := "!speechtarget"
def tnPicker : FName := "!picker"

/-! ## Built-in input and output names (function-level statics of `FireInput`) -/

def inKill : FName := "Kill"
def inKillHierarchy : FName := "KillHierarchy"
def inAddOutput : FName := "AddOutput"
def inFireUser1 : FName := "FireUser1"
def inFireUser2 : FName := "FireUser2"
def inFireUser3 : FName := "FireUser3"
def inFireUser4 : FName := "FireUser4"
def onFireUser1 : FName := "OnUser1"
def onFireUser2 : FName := "OnUser2"
def onFireUser3 : FName := "OnUser3"
def onFireUser4 : FName := "OnUser4"

/-! ## `FireOutput`, first loop: gathering the outputs to fire -/

/-- The test of line 97, `logicOutput.InputName == outputName`. -/
def scanTest (outputName : FName) (logicOutput : FEntityLogicOutput) : Bool :=
  logicOutput.InputName == outputName

/-- The loop `for (int i = LogicOutputs.Num() - 1; i >= 0; --i)` of lines 94-105.
The first argument is `i + 1`; the state is `(LogicOutputs, toFire)`.
`toFire.Add` appends at the end and keeps the value read at index `i` (the
element type is written as a reference; a collected output is taken to be
the entry as it was when collected); `RemoveAt(i)` is `List.eraseIdx`. -/
def gatherLoop (outputName : FName) :
    Nat → List FEntityLogicOutput → List FEntityLogicOutput →
      Except Fault (List FEntityLogicOutput × List FEntityLogicOutput)
  | 0, LogicOutputs, toFire => .ok (LogicOutputs, toFire)
  | i + 1, LogicOutputs, toFire =>
    match LogicOutputs[i]? with
    | none => .error Fault.outOfRange
    | some logicOutput =>
      if scanTest outputName logicOutput then
        if logicOutput.Once then
          gatherLoop outputName i (LogicOutputs.eraseIdx i) (toFire ++ [logicOutput])
        else
          gatherLoop outputName i LogicOutputs (toFire ++ [logicOutput])
      else
        gatherLoop outputName i LogicOutputs toFire

/-- Lines 93-105: the scan phase of `FireOutput`, from an empty `toFire`.
Returns the store left behind and the collected outputs in collection order. -/
def gather (outputName : FName) (LogicOutputs : List FEntityLogicOutput) :
    Except Fault (List FEntityLogicOutput × List FEntityLogicOutput) :=
  gatherLoop outputName LogicOutputs.length LogicOutputs []

/-! ## `FireOutput`, argument preparation -/

/-- The loop `for (int i = 0; i < args.Num(); ++i)` of lines 137-147.
The first argument is the part of `args` from index `i` on, so its head is
`args[i]`; the third is the local `arguments`. -/
def prepareLoop : List String → Nat → List String → Except Fault (List String)
  | [], _, arguments => .ok arguments
  | argsI :: rest, i, arguments =>
    if i > arguments.length then
      prepareLoop rest (i + 1) (arguments ++ [argsI])
    else
      match arguments[i]? with
      | none => .error Fault.outOfRange
      | some s =>
        if s.isEmpty then
          prepareLoop rest (i + 1) (arguments.set i argsI)
        else
          prepareLoop rest (i + 1) arguments

/-- Lines 135-148: `arguments` starts as a copy of `Params` and is merged with
the runtime `args`. -/
def prepareArguments (Params args : List String) : Except Fault (List String) :=
  prepareLoop args 0 Params

/-! ## The world the dispatch runs in -/

/-- The part of the world this code reads and writes: the `LogicOutputs`
array of every entity and the entities on which `Destroy()` has been called. -/
structure World where
  LogicOutputs : EntityId → List FEntityLogicOutput
  Destroyed : List EntityId

/-- A member-function activation, recorded in the order the activations begin. -/
inductive Call where
  | input (self : EntityId) (inputName : FName) (args : List String)
      (caller activator : Option EntityId)
  | output (self : EntityId) (outputName : FName) (args : List String)
      (caller activator : Option EntityId)
  | hook (self : EntityId) (inputName : FName) (args : List String)
      (caller activator : Option EntityId)
  deriving DecidableEq, Repr

/-- Execution state: the world and the record of activations so far.  The
record is observation only; no embedded function reads it. -/
structure State where
  world : World
  trace : List Call

/-- Appends an activation to the record. -/
def State.record (s : State) (c : Call) : State :=
  { s with trace := s.trace ++ [c] }

/-- Assignment to the `LogicOutputs` member of entity `self`. -/
def State.setLogicOutputs (s : State) (self : EntityId)
    (store : List FEntityLogicOutput) : State :=
  { s with world := { s.world with
      LogicOutputs := fun e => if e = self then store else s.world.LogicOutputs e } }

/-- The engine call `Destroy()` on entity `self`. -/
def Destroy (self : EntityId) (s : State) : State :=
  { s with world := { s.world with Destroyed := s.world.Destroyed ++ [self] } }

/-- `ABaseEntity::OnInputFired_Implementation` (lines 191-194): the body is
empty, so only the activation is recorded. -/
def OnInputFired_Implementation (self : EntityId) (inputName : FName)
    (args : List String) (caller activator : Option EntityId) (s : State) : State :=
  s.record (Call.hook self inputName args caller activator)

/-- Type of `IHL2Runtime::FindEntitiesByTargetName(GetWorld(), name, targets)`,
whose declaration is not part of `IHL2Runtime.h` as embedded here: given the
world and a name it yields the entities added to `targets`.  It is a parameter
of everything below. -/
abbrev NameIndex := World → FName → List EntityId

/-- Signature of `FireInput` as a state transformer. -/
abbrev InputFn := EntityId → FName → List String → Option EntityId → Option EntityId →
  State → Except Fault (Bool × State)

/-- Signature of `FireOutput` as a state transformer. -/
abbrev OutputFn := EntityId → FName → List String → Option EntityId → Option EntityId →
  State → Except Fault (Nat × State)

/-! ## `FireInput` -/

/-- A branch `FireOutput(onFireUserN, args, this, caller); return true;`. -/
def fireUser (fireOutput : OutputFn) (self : EntityId) (onFireUser : FName)
    (args : List String) (caller : Option EntityId) (s : State) :
    Except Fault (Bool × State) :=
  match fireOutput self onFireUser args (some self) caller s with
  | .error e => .error e
  | .ok (_, s1) => .ok (true, s1)

/-- The body of `ABaseEntity::FireInput` (lines 35-84), with the `FireOutput`
it calls as a parameter.  `OnInputFired` is a native event; the embedding takes
its native implementation `OnInputFired_Implementation`. -/
def FireInputWith (fireOutput : OutputFn) : InputFn :=
  fun self inputName args caller activator s0 =>
    let s := s0.record (Call.input self inputName args caller activator)
    if inputName == inKill || inputName == inKillHierarchy then
      .ok (true, Destroy self s)
    else if inputName == inAddOutput then
      .ok (false, s)
    else if inputName == inFireUser1 then
      fireUser fireOutput self onFireUser1 args caller s
    else if inputName == inFireUser2 then
      fireUser fireOutput self onFireUser2 args caller s
    else if inputName == inFireUser3 then
      fireUser fireOutput self onFireUser3 args caller s
    else if inputName == inFireUser4 then
      fireUser fireOutput self onFireUser4 args caller s
    else
      .ok (true, OnInputFired_Implementation self inputName args caller activator s)

/-! ## `FireOutput` -/

/-- Lines 114-132: the `targets` array built for one collected output. -/
def resolveTargets (find : NameIndex) (w : World) (self : EntityId)
    (caller activator : Option EntityId) (TargetName : FName) : List EntityId :=
  if TargetName == tnActivator then
    match activator with
    | some a => [a]
    | none => []
  else if TargetName == tnCaller then
    match caller with
    | some c => [c]
    | none => []
  else if TargetName == tnSelf then
    [self]
  else
    find w TargetName

/-- Lines 151-158: the loop over `targets`; the `Nat` is the running `result`.
The call is `targetEntity->FireInput(logicOutput.InputName, arguments, this, caller)`. -/
def fireTargets (fireInput : InputFn) (self : EntityId) (InputName : FName)
    (arguments : List String) (caller : Option EntityId) :
    List EntityId → Nat → State → Except Fault (Nat × State)
  | [], result, s => .ok (result, s)
  | targetEntity :: rest, result, s =>
    match fireInput targetEntity InputName arguments (some self) caller s with
    | .error e => .error e
    | .ok (handled, s1) =>
      fireTargets fireInput self InputName arguments caller rest
        (if handled then result + 1 else result) s1

/-- Lines 112-159: the loop over `toFire`; the `Nat` is the running `result`. -/
def fireLoop (find : NameIndex) (fireInput : InputFn) (self : EntityId)
    (args : List String) (caller activator : Option EntityId) :
    List FEntityLogicOutput → Nat → State → Except Fault (Nat × State)
  | [], result, s => .ok (result, s)
  | logicOutput :: rest, result, s =>
    let targets := resolveTargets find s.world self caller activator logicOutput.TargetName
    match prepareArguments logicOutput.Params args with
    | .error e => .error e
    | .ok arguments =>
      match fireTargets fireInput self logicOutput.InputName arguments caller
          targets result s with
      | .error e => .error e
      | .ok (result1, s1) =>
        fireLoop find fireInput self args caller activator rest result1 s1

/-- `ABaseEntity::FireOutput` (lines 90-162).  The first `Nat` bounds the depth
of nested `FireOutput` activations. -/
def FireOutput (find : NameIndex) : Nat → OutputFn
  | 0, _, _, _, _, _, _ => .error Fault.outOfFuel
  | fuel + 1, self, outputName, args, caller, activator, s0 =>
    let s := s0.record (Call.output self outputName args caller activator)
    match gather outputName (s.world.LogicOutputs self) with
    | .error e => .error e
    | .ok (store, toFire) =>
      fireLoop find (FireInputWith (FireOutput find fuel)) self args caller activator
        toFire 0 (s.setLogicOutputs self store)

/-- `ABaseEntity::FireInput` (lines 35-84); `fuel` bounds the depth of the
`FireOutput` activations it may start. -/
def FireInput (find : NameIndex) (fuel : Nat) : InputFn :=
  FireInputWith (FireOutput find fuel)

/-! ## Auxiliary definitions used to state and prove the properties -/

deriving instance DecidableEq for Except

/-- The entries the scan leaves in the store: not (tested positive and `Once`). -/
def survives (outputName : FName) (logicOutput : FEntityLogicOutput) : Bool :=
  !(scanTest outputName logicOutput && logicOutput.Once)

/-- Position-wise merge of stored parameters with runtime arguments where the
arguments do not outnumber the parameters: an empty parameter takes the
argument at its position. -/
def overlay : List String → List String → List String
  | [], _ => []
  | p :: ps, [] => p :: ps
  | p :: ps, a :: as => (if p.isEmpty then a else p) :: overlay ps as

/-- Every store of `t` is a sublist of the store the same entity has in `s`. -/
def StoresShrink (s t : State) : Prop :=
  ∀ e, (t.world.LogicOutputs e).Sublist (s.world.LogicOutputs e)

/-- An output function under which stores only lose entries. -/
def OutputShrinks (f : OutputFn) : Prop :=
  ∀ self n args c a s r t, f self n args c a s = .ok (r, t) → StoresShrink s t

/-- An input function under which stores only lose entries. -/
def InputShrinks (f : InputFn) : Prop :=
  ∀ self n args c a s r t, f self n args c a s = .ok (r, t) → StoresShrink s t

/-- What a finished dispatch shows: the returned count, the record of
activations, the store of entity `e` and the destroyed entities. -/
def observe (e : EntityId) (r : Except Fault (Nat × State)) :
    Except Fault (Nat × List Call × List FEntityLogicOutput × List EntityId) :=
  match r with
  | .error x => .error x
  | .ok (n, s) => .ok (n, s.trace, s.world.LogicOutputs e, s.world.Destroyed)

/-! ### The end-to-end scenario: a trigger wired to a relay -/

def trigger1 : EntityId := 1
def relay1 : EntityId := 2
def player : EntityId := 3
def bystander : EntityId := 7

/-- The single connection of `trigger1`:
`(target relay1, output OnTrigger, input Trigger, delay 0, once false, no params)`. -/
def triggerConnection : FEntityLogicOutput :=
  { TargetName := "relay1", OutputName := "OnTrigger", InputName := "Trigger",
    Delay := 0, Once := false, Params := [] }

/-- The name index of the scenario: `relay1` names the entity `relay1` only. -/
def scenarioIndex : NameIndex :=
  fun _ name => if name = "relay1" then [relay1] else []

/-- Start state of the scenario: only `trigger1` has a connection. -/
def scenarioStart : State :=
  { world := { LogicOutputs := fun e => if e = trigger1 then [triggerConnection] else [],
               Destroyed := [] },
    trace := [] }

/-! ### Three connections that pass the scan test for `X` -/

def xOnceA : FEntityLogicOutput :=
  { TargetName := "a", OutputName := "X", InputName := "X", Delay := 0, Once := true,
    Params := [] }

def xKeepB : FEntityLogicOutput :=
  { TargetName := "b", OutputName := "X", InputName := "X", Delay := 0, Once := false,
    Params := [] }

def xOnceC : FEntityLogicOutput :=
  { TargetName := "c", OutputName := "X", InputName := "X", Delay := 0, Once := true,
    Params := [] }

/-- The first and the last of the three are one-shot. -/
def threeOnX : List FEntityLogicOutput := [xOnceA, xKeepB, xOnceC]

/-- Entity `trigger1` holds `threeOnX`; no other entity has a connection. -/
def threeOnXStart : State :=
  { world := { LogicOutputs := fun e => if e = trigger1 then threeOnX else [],
               Destroyed := [] },
    trace := [] }

/-- The state after `trigger1` has fired `X` from `threeOnXStart`. -/
def threeOnXFired : State :=
  (threeOnXStart.record (Call.output trigger1 "X" [] none none)).setLogicOutputs
    trigger1 [xKeepB]

/-! ### Three connections on output `X` whose input is `Trigger` -/

def onXOnceA : FEntityLogicOutput :=
  { TargetName := "a", OutputName := "X", InputName := "Trigger", Delay := 0, Once := true,
    Params := [] }

def onXKeepB : FEntityLogicOutput :=
  { TargetName := "b", OutputName := "X", InputName := "Trigger", Delay := 0, Once := false,
    Params := [] }

def onXOnceC : FEntityLogicOutput :=
  { TargetName := "c", OutputName := "X", InputName := "Trigger", Delay := 0, Once := true,
    Params := [] }

/-- Three connections stored for output `X`; the first and the last are
one-shot.  None is stored for output `Trigger`. -/
def threeOnOutputX : List FEntityLogicOutput := [onXOnceA, onXKeepB, onXOnceC]

/-! ### Names that restart a dispatch -/

/-- The input names `FireUser1` .. `FireUser4`, the only ones on which
`FireInput` calls `FireOutput`. -/
def isFireUser (inputName : FName) : Bool :=
  inputName == inFireUser1 || inputName == inFireUser2 || inputName == inFireUser3 ||
    inputName == inFireUser4

/-! ## `ResetLogicOutputs` -/

/-- Engine string functions called by `ResetLogicOutputs`; their code is not
part of the sources, so they are parameters.
`ParseIntoArray v` is the array filled by `v.ParseIntoArray(out, TEXT(","), false)`,
`Trim` is `FString::Trim`, `Atof` and `Atoi` are `FCString::Atof` and
`FCString::Atoi`; constructing an `FName` from text is the identity. -/
structure Engine where
  ParseIntoArray : String → List String
  Trim : String → String
  Atof : String → ℚ
  Atoi : String → Int

/-- `TArray::operator[]` with its range check. -/
def TArray.elem {α : Type} (a : List α) (i : Nat) : Except Fault α :=
  match a[i]? with
  | some x => .ok x
  | none => .error Fault.outOfRange

/-- `TArray::Last(k)`: the element `k` places before the last one. -/
def TArray.Last {α : Type} (a : List α) (k : Nat) : Except Fault α :=
  if k < a.length then TArray.elem a (a.length - k - 1) else .error Fault.outOfRange

/-- `TArray::RemoveAt(i, count)` with its range check. -/
def TArray.RemoveAt {α : Type} (a : List α) (i count : Nat) : Except Fault (List α) :=
  if i + count ≤ a.length then .ok (a.take i ++ a.drop (i + count))
  else .error Fault.outOfRange

/-- Lines 172-186: the body of the loop of `ResetLogicOutputs` for one pair;
`none` when the value has fewer than four fields.  `Trim` also rewrites the
entry it is called on, which is modelled by `List.set`. -/
def logicOutputOfPair (eng : Engine) (Key : FName) (Value : String) :
    Except Fault (Option FEntityLogicOutput) :=
  let logicArgs := eng.ParseIntoArray Value
  if logicArgs.length ≥ 4 then
    match TArray.elem logicArgs 0 with
    | .error e => .error e
    | .ok a0 =>
      let logicArgs0 := logicArgs.set 0 (eng.Trim a0)
      match TArray.elem logicArgs0 1 with
      | .error e => .error e
      | .ok a1 =>
        let logicArgs1 := logicArgs0.set 1 (eng.Trim a1)
        match TArray.Last logicArgs1 1 with
        | .error e => .error e
        | .ok d =>
          match TArray.Last logicArgs1 0 with
          | .error e => .error e
          | .ok o =>
            match TArray.RemoveAt logicArgs1 (logicArgs1.length - 2) 2 with
            | .error e => .error e
            | .ok logicArgs2 =>
              match TArray.RemoveAt logicArgs2 0 2 with
              | .error e => .error e
              | .ok logicArgs3 =>
                .ok (some
                  { TargetName := eng.Trim a0
                    OutputName := Key
                    InputName := eng.Trim a1
                    Delay := eng.Atof d
                    Once := eng.Atoi o != -1
                    Params := logicArgs3 })
  else
    .ok none

/-- Lines 170-187: the loop over `EntityData.KeyValues`, given as the pairs in
iteration order; the last argument is `LogicOutputs`. -/
def resetLoop (eng : Engine) :
    List (FName × String) → List FEntityLogicOutput → Except Fault (List FEntityLogicOutput)
  | [], LogicOutputs => .ok LogicOutputs
  | pair :: rest, LogicOutputs =>
    match logicOutputOfPair eng pair.1 pair.2 with
    | .error e => .error e
    | .ok none => resetLoop eng rest LogicOutputs
    | .ok (some logicOutput) => resetLoop eng rest (LogicOutputs ++ [logicOutput])

/-- `ABaseEntity::ResetLogicOutputs` (lines 167-188) on entity `self`, whose
`EntityData.KeyValues` is `KeyValues`: `LogicOutputs.Empty()`, then the loop. -/
def ResetLogicOutputs (eng : Engine) (KeyValues : List (FName × String)) (self : EntityId)
    (s : State) : Except Fault State :=
  match resetLoop eng KeyValues [] with
  | .error e => .error e
  | .ok LogicOutputs => .ok (s.setLogicOutputs self LogicOutputs)

/-! ### A concrete engine for plain text -/

/-- Splits at every comma, keeping empty fields; the second argument is the
field read so far, last character first. -/
def splitComma : List Char → List Char → List (List Char)
  | [], cur => [cur.reverse]
  | ch :: rest, cur =>
    if ch = ',' then cur.reverse :: splitComma rest [] else splitComma rest (ch :: cur)

/-- Fields of a comma separated text; the empty text has no field. -/
def textParseIntoArray (v : String) : List String :=
  if v.data.isEmpty then [] else (splitComma v.data []).map String.mk

/-- Removes blanks and tabs from the front. -/
def textTrim (v : String) : String :=
  String.mk (v.data.dropWhile (fun ch => ch = ' ' || ch = '\t'))

/-- Value of a run of decimal digits read from the left, stopping at the first
other character; the `Nat` is the value so far. -/
def digitsValue : List Char → Nat → Nat
  | [], acc => acc
  | ch :: rest, acc =>
    if ch.isDigit then digitsValue rest (acc * 10 + (ch.toNat - '0'.toNat)) else acc

/-- Decimal integer with an optional sign, as `atoi` reads it. -/
def textAtoi (v : String) : Int :=
  match v.data.dropWhile (fun ch => ch = ' ' || ch = '\t') with
  | '-' :: rest => - (digitsValue rest 0 : Int)
  | '+' :: rest => (digitsValue rest 0 : Int)
  | rest => (digitsValue rest 0 : Int)

/-- Unsigned decimal number `digits` or `digits.digits`, without exponent. -/
def decimalValue (v : List Char) : ℚ :=
  match v.dropWhile Char.isDigit with
  | '.' :: frac =>
    (digitsValue v 0 : ℚ) +
      (digitsValue frac 0 : ℚ) / (10 : ℚ) ^ (frac.takeWhile Char.isDigit).length
  | _ => (digitsValue v 0 : ℚ)

/-- Decimal number with an optional sign, without exponent, as the exact
rational it is written as. -/
def textAtof (v : String) : ℚ :=
  match v.data.dropWhile (fun ch => ch = ' ' || ch = '\t') with
  | '-' :: rest => - decimalValue rest
  | '+' :: rest => decimalValue rest
  | rest => decimalValue rest

/-- The engine used in the examples: comma splitting, trimming at the front,
decimal numbers. -/
def textEngine : Engine :=
  { ParseIntoArray := textParseIntoArray
    Trim := textTrim
    Atof := textAtof
    Atoi := textAtoi }

/-- A pair of `EntityData.KeyValues` whose value has at least four fields. -/
def wellFormed (eng : Engine) (pair : FName × String) : Bool :=
  decide (4 ≤ (eng.ParseIntoArray pair.2).length)

/-! ### The outcome of every `FireInput` call of a dispatch -/

/-- The loop over `targets` of lines 151-158 once more, returning, instead of
the count, every target with what its `FireInput` call returned, in call
order. -/
def targetOutcomes (fireInput : InputFn) (self : EntityId) (InputName : FName)
    (arguments : List String) (caller : Option EntityId) :
    List EntityId → State → Except Fault (List (EntityId × Bool) × State)
  | [], s => .ok ([], s)
  | targetEntity :: rest, s =>
    match fireInput targetEntity InputName arguments (some self) caller s with
    | .error e => .error e
    | .ok (handled, s1) =>
      match targetOutcomes fireInput self InputName arguments caller rest s1 with
      | .error e => .error e
      | .ok (log, t) => .ok ((targetEntity, handled) :: log, t)

/-- The loop over `toFire` of lines 112-159 once more, returning every pair of
a collected output and a resolved target with what its `FireInput` call
returned, in call order. -/
def loopOutcomes (find : NameIndex) (fireInput : InputFn) (self : EntityId)
    (args : List String) (caller activator : Option EntityId) :
    List FEntityLogicOutput → State →
      Except Fault (List (FEntityLogicOutput × EntityId × Bool) × State)
  | [], s => .ok ([], s)
  | logicOutput :: rest, s =>
    match prepareArguments logicOutput.Params args with
    | .error e => .error e
    | .ok arguments =>
      match targetOutcomes fireInput self logicOutput.InputName arguments caller
          (resolveTargets find s.world self caller activator logicOutput.TargetName) s with
      | .error e => .error e
      | .ok (log1, s1) =>
        match loopOutcomes find fireInput self args caller activator rest s1 with
        | .error e => .error e
        | .ok (log2, t) => .ok (log1.map (fun p => (logicOutput, p.1, p.2)) ++ log2, t)

/-- Number of calls of a record of outcomes that reported handled. -/
def handledCount (log : List (FEntityLogicOutput × EntityId × Bool)) : Nat :=
  log.countP (fun p => p.2.2)

/-! ### Two connections on `X` with different targets -/

def xToCaller : FEntityLogicOutput :=
  { TargetName := "!caller", OutputName := "X", InputName := "X", Delay := 0, Once := false,
    Params := [] }

def xToActivator : FEntityLogicOutput :=
  { TargetName := "!activator", OutputName := "X", InputName := "X", Delay := 0,
    Once := false, Params := [] }

/-- Entity `trigger1` holds `xToCaller` first and `xToActivator` second. -/
def orderStart : State :=
  { world := { LogicOutputs := fun e => if e = trigger1 then [xToCaller, xToActivator] else [],
               Destroyed := [] },
    trace := [] }

/-! ### An entity wired to itself -/

/-- The connection `(target !self, output OnUser1, input FireUser1)`. -/
def selfLoop : FEntityLogicOutput :=
  { TargetName := "!self", OutputName := "OnUser1", InputName := "FireUser1", Delay := 0,
    Once := false, Params := [] }

/-- Entity `relay1` holds `selfLoop`; no other entity has a connection. -/
def selfLoopStart : State :=
  { world := { LogicOutputs := fun e => if e = relay1 then [selfLoop] else [],
               Destroyed := [] },
    trace := [] }

/-! ### A one-shot connection on `AddOutput` -/

def addOutputOnce : FEntityLogicOutput :=
  { TargetName := "!self", OutputName := "AddOutput", InputName := "AddOutput", Delay := 0,
    Once := true, Params := [] }

/-- Entity `trigger1` holds `addOutputOnce` and `xKeepB`. -/
def addOutputStart : State :=
  { world := { LogicOutputs := fun e => if e = trigger1 then [addOutputOnce, xKeepB] else [],
               Destroyed := [] },
    trace := [] }

/-! ### Raw entity data -/

/-- Key/value pairs of an entity: one connection and two pairs that are none. -/
def sampleKeyValues : List (FName × String) :=
  [("classname", "trigger_once"), ("OnTrigger", "relay1,Trigger,0,-1"), ("origin", "0,0,0")]

/-! ### Runs that differ only in the record of activations -/

/-- Two runs end alike: the same fault, or the same value and the same world. -/
def SameOutcome {α : Type} (r1 r2 : Except Fault (α × State)) : Prop :=
  match r1, r2 with
  | .ok (v1, t1), .ok (v2, t2) => v1 = v2 ∧ t1.world = t2.world
  | .error e1, .error e2 => e1 = e2
  | _, _ => False

/-- An output function whose outcome depends on the world only. -/
def OutputBlind (f : OutputFn) : Prop :=
  ∀ self n args c a (s1 s2 : State), s1.world = s2.world →
    SameOutcome (f self n args c a s1) (f self n args c a s2)

/-- An input function whose outcome depends on the world only, and not on the
activator it is given when the name is one of `FireUser1` .. `FireUser4`. -/
def InputBlind (g : InputFn) : Prop :=
  (∀ self n args c a (s1 s2 : State), s1.world = s2.world →
    SameOutcome (g self n args c a s1) (g self n args c a s2)) ∧
  (∀ self n args c a1 a2 (s1 s2 : State), isFireUser n = true → s1.world = s2.world →
    SameOutcome (g self n args c a1 s1) (g self n args c a2 s2))

/-! ## Lemmas on lists -/

theorem getElem?_mid {α : Type} (p : List α) (x : α) (suf : List α) :
    (p ++ x :: suf)[p.length]? = some x := by
  rw [List.getElem?_append_right (le_refl _)]
  simp

theorem eraseIdx_mid {α : Type} (p : List α) (x : α) (suf : List α) :
    (p ++ x :: suf).eraseIdx p.length = p ++ suf := by
  induction p with
  | nil => simp
  | cons a p ih => simpa using ih

theorem set_mid {α : Type} (p : List α) (x y : α) (suf : List α) :
    (p ++ x :: suf).set p.length y = p ++ y :: suf := by
  induction p with
  | nil => simp
  | cons a p ih => simp [ih]

/-! ## The scan phase -/

theorem gatherLoop_append (outputName : FName) (pre suf toFire : List FEntityLogicOutput) :
    gatherLoop outputName pre.length (pre ++ suf) toFire =
      .ok (pre.filter (survives outputName) ++ suf,
           toFire ++ (pre.filter (scanTest outputName)).reverse) := by
  induction pre using List.reverseRecOn generalizing suf toFire with
  | nil => simp [gatherLoop]
  | append_singleton p x ih =>
    have hlen : (p ++ [x]).length = p.length + 1 := by simp
    rw [hlen, gatherLoop]
    have hget : (p ++ [x] ++ suf)[p.length]? = some x := by
      simpa using getElem?_mid p x suf
    rw [hget]
    have herase : (p ++ [x] ++ suf).eraseIdx p.length = p ++ suf := by
      simpa using eraseIdx_mid p x suf
    have hsplit : p ++ [x] ++ suf = p ++ (x :: suf) := by simp
    cases ht : scanTest outputName x with
    | false =>
      simp only [ht, Bool.false_eq_true, if_false]
      rw [hsplit, ih]
      simp [List.filter_append, survives, ht]
    | true =>
      cases ho : x.Once with
      | false =>
        simp only [ht, ho, Bool.false_eq_true, if_false, if_true]
        rw [hsplit, ih]
        simp [List.filter_append, survives, ht, ho]
      | true =>
        simp only [ht, ho, if_true, herase]
        rw [ih]
        simp [List.filter_append, survives, ht, ho]

theorem gather_eq (outputName : FName) (L : List FEntityLogicOutput) :
    gather outputName L =
      .ok (L.filter (survives outputName), (L.filter (scanTest outputName)).reverse) := by
  have h := gatherLoop_append outputName L [] []
  simpa [gather] using h

/-! ## Argument preparation -/

theorem overlay_nil_right (ps : List String) : overlay ps [] = ps := by
  cases ps <;> rfl

theorem overlay_length (ps as : List String) : (overlay ps as).length = ps.length := by
  induction ps generalizing as with
  | nil => rfl
  | cons p ps ih => cases as <;> simp [overlay, ih]

theorem isEmpty_empty : "".isEmpty = true := by decide

theorem overlay_getElem? (ps as : List String) (i : Nat) :
    (overlay ps as)[i]? = if i < as.length ∧ ps[i]? = some "" then as[i]? else ps[i]? := by
  induction ps generalizing as i with
  | nil => simp [overlay]
  | cons p ps ih =>
    cases as with
    | nil => simp [overlay]
    | cons a as =>
      cases i with
      | zero =>
        by_cases hp : p = ""
        · simp [overlay, hp, isEmpty_empty]
        · have : ¬ (p.isEmpty = true) := fun h => hp ((String.isEmpty_iff p).1 h)
          simp [overlay, hp, this]
      | succ i => simpa [overlay] using ih as i

theorem prepareLoop_fits (rest pre post : List String) (h : rest.length ≤ post.length) :
    prepareLoop rest pre.length (pre ++ post) = .ok (pre ++ overlay post rest) := by
  induction rest generalizing pre post with
  | nil => simp [prepareLoop, overlay_nil_right]
  | cons a r ih =>
    cases post with
    | nil => simp at h
    | cons s post =>
      have hng : ¬ pre.length > (pre ++ s :: post).length := by simp
      have hr : r.length ≤ post.length := by simpa using h
      rw [prepareLoop, if_neg hng, getElem?_mid]
      simp only []
      by_cases hs : s.isEmpty = true
      · rw [if_pos hs, set_mid]
        have := ih (pre ++ [a]) post hr
        simp only [List.length_append, List.length_singleton, List.append_assoc,
          List.singleton_append] at this
        rw [this]
        simp [overlay, hs]
      · rw [if_neg hs]
        have := ih (pre ++ [s]) post hr
        simp only [List.length_append, List.length_singleton, List.append_assoc,
          List.singleton_append] at this
        rw [this]
        simp [overlay, hs]

theorem prepareLoop_overrun (rest pre post : List String) (h : post.length < rest.length) :
    prepareLoop rest pre.length (pre ++ post) = .error Fault.outOfRange := by
  induction rest generalizing pre post with
  | nil => simp at h
  | cons a r ih =>
    cases post with
    | nil =>
      have hng : ¬ pre.length > (pre ++ []).length := by simp
      have hnone : (pre ++ ([] : List String))[pre.length]? = none := by simp
      rw [prepareLoop, if_neg hng, hnone]
    | cons s post =>
      have hng : ¬ pre.length > (pre ++ s :: post).length := by simp
      have hr : post.length < r.length := by simpa using h
      rw [prepareLoop, if_neg hng, getElem?_mid]
      simp only []
      by_cases hs : s.isEmpty = true
      · rw [if_pos hs, set_mid]
        have := ih (pre ++ [a]) post hr
        simp only [List.length_append, List.length_singleton, List.append_assoc,
          List.singleton_append] at this
        exact this
      · rw [if_neg hs]
        have := ih (pre ++ [s]) post hr
        simp only [List.length_append, List.length_singleton, List.append_assoc,
          List.singleton_append] at this
        exact this

theorem prepareArguments_fits (Params args : List String) (h : args.length ≤ Params.length) :
    prepareArguments Params args = .ok (overlay Params args) := by
  simpa [prepareArguments] using prepareLoop_fits args [] Params h

theorem prepareArguments_overrun (Params args : List String)
    (h : Params.length < args.length) :
    prepareArguments Params args = .error Fault.outOfRange := by
  simpa [prepareArguments] using prepareLoop_overrun args [] Params h

/-! ## Stores only lose entries during a dispatch -/

theorem StoresShrink.rfl (s : State) : StoresShrink s s :=
  fun _ => List.Sublist.refl _

theorem StoresShrink.trans {s t u : State} (h1 : StoresShrink s t) (h2 : StoresShrink t u) :
    StoresShrink s u :=
  fun e => (h2 e).trans (h1 e)

theorem fireUser_shrinks {f : OutputFn} (hf : OutputShrinks f) (self : EntityId)
    (n : FName) (args : List String) (c : Option EntityId) (s : State) (r : Bool)
    (t : State) (h : fireUser f self n args c s = .ok (r, t)) : StoresShrink s t := by
  unfold fireUser at h
  cases hq : f self n args (some self) c s with
  | error e => rw [hq] at h; cases h
  | ok v =>
    obtain ⟨k, s1⟩ := v
    rw [hq] at h
    simp only [Except.ok.injEq, Prod.mk.injEq] at h
    rw [← h.2]
    exact hf _ _ _ _ _ _ _ _ hq

theorem FireInputWith_shrinks {f : OutputFn} (hf : OutputShrinks f) :
    InputShrinks (FireInputWith f) := by
  intro self n args c a s r t h
  have hrec : StoresShrink s (s.record (Call.input self n args c a)) := fun _ => List.Sublist.refl _
  unfold FireInputWith at h
  simp only [] at h
  split at h
  · simp only [Except.ok.injEq, Prod.mk.injEq] at h
    rw [← h.2]
    exact fun _ => List.Sublist.refl _
  · split at h
    · simp only [Except.ok.injEq, Prod.mk.injEq] at h
      rw [← h.2]
      exact hrec
    · split at h
      · exact hrec.trans (fireUser_shrinks hf _ _ _ _ _ _ _ h)
      · split at h
        · exact hrec.trans (fireUser_shrinks hf _ _ _ _ _ _ _ h)
        · split at h
          · exact hrec.trans (fireUser_shrinks hf _ _ _ _ _ _ _ h)
          · split at h
            · exact hrec.trans (fireUser_shrinks hf _ _ _ _ _ _ _ h)
            · simp only [Except.ok.injEq, Prod.mk.injEq] at h
              rw [← h.2]
              exact fun _ => List.Sublist.refl _

theorem fireTargets_shrinks {g : InputFn} (hg : InputShrinks g) (self : EntityId)
    (n : FName) (arguments : List String) (c : Option EntityId) (targets : List EntityId)
    (result : Nat) (s : State) (r : Nat) (t : State)
    (h : fireTargets g self n arguments c targets result s = .ok (r, t)) :
    StoresShrink s t := by
  induction targets generalizing result s with
  | nil =>
    simp only [fireTargets, Except.ok.injEq, Prod.mk.injEq] at h
    rw [← h.2]
    exact StoresShrink.rfl s
  | cons e rest ih =>
    rw [fireTargets] at h
    cases hq : g e n arguments (some self) c s with
    | error x => rw [hq] at h; cases h
    | ok v =>
      obtain ⟨handled, s1⟩ := v
      rw [hq] at h
      exact (hg _ _ _ _ _ _ _ _ hq).trans (ih _ _ h)

theorem fireLoop_shrinks (find : NameIndex) {g : InputFn} (hg : InputShrinks g)
    (self : EntityId) (args : List String) (c a : Option EntityId)
    (toFire : List FEntityLogicOutput) (result : Nat) (s : State) (r : Nat) (t : State)
    (h : fireLoop find g self args c a toFire result s = .ok (r, t)) :
    StoresShrink s t := by
  induction toFire generalizing result s with
  | nil =>
    simp only [fireLoop, Except.ok.injEq, Prod.mk.injEq] at h
    rw [← h.2]
    exact StoresShrink.rfl s
  | cons lo rest ih =>
    rw [fireLoop] at h
    cases hp : prepareArguments lo.Params args with
    | error x => rw [hp] at h; cases h
    | ok arguments =>
      rw [hp] at h
      simp only [] at h
      cases hq : fireTargets g self lo.InputName arguments c
          (resolveTargets find s.world self c a lo.TargetName) result s with
      | error x => rw [hq] at h; cases h
      | ok v =>
        obtain ⟨r1, s1⟩ := v
        rw [hq] at h
        exact (fireTargets_shrinks hg _ _ _ _ _ _ _ _ _ hq).trans (ih _ _ h)

theorem FireOutput_shrinks (find : NameIndex) (fuel : Nat) :
    OutputShrinks (FireOutput find fuel) := by
  induction fuel with
  | zero =>
    intro self n args c a s r t h
    simp [FireOutput] at h
  | succ fuel ih =>
    intro self n args c a s r t h
    rw [FireOutput] at h
    rw [gather_eq] at h
    simp only [] at h
    have h2 := fireLoop_shrinks find (FireInputWith_shrinks ih) _ _ _ _ _ _ _ _ _ h
    intro e
    refine (h2 e).trans ?_
    simp only [State.setLogicOutputs, State.record]
    split
    · next he => rw [he]; exact List.filter_sublist _
    · exact List.Sublist.refl _

/-! ## The store of the firing entity after a whole dispatch -/

theorem survivor_not_consumed (n : FName) (L : List FEntityLogicOutput)
    (c : FEntityLogicOutput) (h : survives n c = true) :
    ¬ (c ∈ (L.filter (scanTest n)).reverse ∧ c.Once = true) := by
  rintro ⟨hm, ho⟩
  have ht : scanTest n c = true := (List.mem_filter.1 (List.mem_reverse.1 hm)).2
  simp [survives, ht, ho] at h

theorem FireOutput_store_sublist (find : NameIndex) (fuel : Nat) (self : EntityId)
    (n : FName) (args : List String) (caller activator : Option EntityId) (s t : State)
    (r : Nat) (h : FireOutput find fuel self n args caller activator s = .ok (r, t)) :
    (t.world.LogicOutputs self).Sublist ((s.world.LogicOutputs self).filter (survives n)) := by
  cases fuel with
  | zero => simp [FireOutput] at h
  | succ fuel =>
    rw [FireOutput, gather_eq] at h
    simp only [] at h
    have h2 := fireLoop_shrinks find (FireInputWith_shrinks (FireOutput_shrinks find fuel))
      _ _ _ _ _ _ _ _ _ h
    have h3 := h2 self
    simpa [State.setLogicOutputs, State.record] using h3

/-! ## `FireInput` on the names that do not restart a dispatch -/

theorem FireInputWith_plain (f : OutputFn) (self : EntityId) (n : FName)
    (args : List String) (c a : Option EntityId) (s : State) (h : isFireUser n = false) :
    FireInputWith f self n args c a s =
      if n = inKill ∨ n = inKillHierarchy then
        .ok (true, Destroy self (s.record (Call.input self n args c a)))
      else if n = inAddOutput then
        .ok (false, s.record (Call.input self n args c a))
      else
        .ok (true, OnInputFired_Implementation self n args c a
          (s.record (Call.input self n args c a))) := by
  simp only [isFireUser, Bool.or_eq_false_iff, beq_eq_false_iff_ne, ne_eq] at h
  obtain ⟨⟨⟨h1, h2⟩, h3⟩, h4⟩ := h
  simp [FireInputWith, h1, h2, h3, h4]

theorem FireInputWith_user (f : OutputFn) (self : EntityId) (args : List String)
    (c a : Option EntityId) (s : State) :
    FireInputWith f self inFireUser1 args c a s =
        fireUser f self onFireUser1 args c (s.record (Call.input self inFireUser1 args c a)) ∧
    FireInputWith f self inFireUser2 args c a s =
        fireUser f self onFireUser2 args c (s.record (Call.input self inFireUser2 args c a)) ∧
    FireInputWith f self inFireUser3 args c a s =
        fireUser f self onFireUser3 args c (s.record (Call.input self inFireUser3 args c a)) ∧
    FireInputWith f self inFireUser4 args c a s =
        fireUser f self onFireUser4 args c (s.record (Call.input self inFireUser4 args c a)) :=
  ⟨rfl, rfl, rfl, rfl⟩

/-! ## Depth of nesting

The scan collects entries by `InputName`, so every `FireInput` issued by
`FireOutput(n)` carries the name `n`; only `FireUser1` .. `FireUser4` restart a
dispatch, and the dispatch they start fires `OnUser1` .. `OnUser4`. -/

theorem prepareArguments_no_fuel (P A : List String) :
    prepareArguments P A ≠ .error Fault.outOfFuel := by
  rcases Nat.lt_or_ge P.length A.length with h | h
  · rw [prepareArguments_overrun P A h]
    intro hx
    cases hx
  · rw [prepareArguments_fits P A h]
    intro hx
    cases hx

theorem fireTargets_no_fuel (g : InputFn) (self : EntityId) (n : FName)
    (arguments : List String) (c : Option EntityId)
    (hg : ∀ e s, g e n arguments (some self) c s ≠ .error Fault.outOfFuel)
    (targets : List EntityId) (result : Nat) (s : State) :
    fireTargets g self n arguments c targets result s ≠ .error Fault.outOfFuel := by
  induction targets generalizing result s with
  | nil =>
    intro hx
    simp [fireTargets] at hx
  | cons e rest ih =>
    rw [fireTargets]
    cases hq : g e n arguments (some self) c s with
    | error x =>
      intro hx
      simp only [Except.error.injEq] at hx
      exact hg e s (by rw [hq, hx])
    | ok v =>
      obtain ⟨handled, s1⟩ := v
      exact ih _ _

theorem fireLoop_no_fuel (find : NameIndex) (g : InputFn) (self : EntityId)
    (args : List String) (c a : Option EntityId) (toFire : List FEntityLogicOutput)
    (hg : ∀ lo ∈ toFire, ∀ arguments e s,
      g e lo.InputName arguments (some self) c s ≠ .error Fault.outOfFuel)
    (result : Nat) (s : State) :
    fireLoop find g self args c a toFire result s ≠ .error Fault.outOfFuel := by
  induction toFire generalizing result s with
  | nil =>
    intro hx
    simp [fireLoop] at hx
  | cons lo rest ih =>
    rw [fireLoop]
    cases hp : prepareArguments lo.Params args with
    | error x =>
      intro hx
      simp only [Except.error.injEq] at hx
      exact prepareArguments_no_fuel lo.Params args (by rw [hp, hx])
    | ok arguments =>
      simp only []
      cases hq : fireTargets g self lo.InputName arguments c
          (resolveTargets find s.world self c a lo.TargetName) result s with
      | error x =>
        intro hx
        simp only [Except.error.injEq] at hx
        exact fireTargets_no_fuel g self lo.InputName arguments c
          (hg lo (List.mem_cons_self _ _) arguments) _ _ _ (by rw [hq, hx])
      | ok v =>
        obtain ⟨r1, s1⟩ := v
        exact ih (fun lo1 h1 => hg lo1 (List.mem_cons_of_mem _ h1)) _ _

theorem FireOutput_eq_fireLoop (find : NameIndex) (fuel : Nat) (self : EntityId)
    (n : FName) (args : List String) (c a : Option EntityId) (s : State) :
    FireOutput find (fuel + 1) self n args c a s =
      fireLoop find (FireInput find fuel) self args c a
        ((s.world.LogicOutputs self).filter (scanTest n)).reverse 0
        ((s.record (Call.output self n args c a)).setLogicOutputs self
          ((s.world.LogicOutputs self).filter (survives n))) := by
  rw [FireOutput]
  simp only [State.record, gather_eq]
  rfl

theorem collected_name (n : FName) (L : List FEntityLogicOutput) (lo : FEntityLogicOutput)
    (h : lo ∈ (L.filter (scanTest n)).reverse) : lo.InputName = n := by
  have h1 := (List.mem_filter.1 (List.mem_reverse.1 h)).2
  simpa [scanTest] using h1

theorem FireInputWith_plain_no_fault (f : OutputFn) (self : EntityId) (n : FName)
    (args : List String) (c a : Option EntityId) (s : State) (h : isFireUser n = false)
    (x : Fault) : FireInputWith f self n args c a s ≠ .error x := by
  rw [FireInputWith_plain f self n args c a s h]
  split
  · intro hx; cases hx
  · split
    · intro hx; cases hx
    · intro hx; cases hx

theorem FireOutput_plain_no_fuel (find : NameIndex) (fuel : Nat) (self : EntityId)
    (n : FName) (args : List String) (c a : Option EntityId) (s : State)
    (h : isFireUser n = false) :
    FireOutput find (fuel + 1) self n args c a s ≠ .error Fault.outOfFuel := by
  rw [FireOutput_eq_fireLoop]
  apply fireLoop_no_fuel
  intro lo hlo arguments e s1
  rw [collected_name n _ lo hlo]
  exact FireInputWith_plain_no_fault _ e n arguments (some self) c s1 h _

theorem fireUser_no_fuel (find : NameIndex) (fuel : Nat) (self : EntityId) (m : FName)
    (args : List String) (c : Option EntityId) (s : State) (h : isFireUser m = false) :
    fireUser (FireOutput find (fuel + 1)) self m args c s ≠ .error Fault.outOfFuel := by
  unfold fireUser
  cases hq : FireOutput find (fuel + 1) self m args (some self) c s with
  | error x =>
    intro hx
    simp only [Except.error.injEq] at hx
    exact FireOutput_plain_no_fuel find fuel self m args (some self) c s h (by rw [hq, hx])
  | ok v =>
    obtain ⟨k, s1⟩ := v
    intro hx
    cases hx

theorem FireInput_no_fuel (find : NameIndex) (fuel : Nat) (self : EntityId) (n : FName)
    (args : List String) (c a : Option EntityId) (s : State) :
    FireInput find (fuel + 1) self n args c a s ≠ .error Fault.outOfFuel := by
  unfold FireInput
  cases hu : isFireUser n with
  | false => exact FireInputWith_plain_no_fault _ self n args c a s hu _
  | true =>
    simp only [isFireUser, Bool.or_eq_true, beq_iff_eq] at hu
    have hall := FireInputWith_user (FireOutput find (fuel + 1)) self args c a s
    rcases hu with ((h | h) | h) | h
    · rw [h, hall.1]
      exact fireUser_no_fuel find fuel self _ args c _ (by decide)
    · rw [h, hall.2.1]
      exact fireUser_no_fuel find fuel self _ args c _ (by decide)
    · rw [h, hall.2.2.1]
      exact fireUser_no_fuel find fuel self _ args c _ (by decide)
    · rw [h, hall.2.2.2]
      exact fireUser_no_fuel find fuel self _ args c _ (by decide)

theorem FireOutput_depth_two (find : NameIndex) (fuel : Nat) (self : EntityId) (n : FName)
    (args : List String) (c a : Option EntityId) (s : State) :
    FireOutput find (fuel + 2) self n args c a s ≠ .error Fault.outOfFuel := by
  rw [FireOutput_eq_fireLoop]
  apply fireLoop_no_fuel
  intro lo _ arguments e s1
  exact FireInput_no_fuel find fuel e _ arguments (some self) c s1

theorem fireUser_handled (f : OutputFn) (self : EntityId) (m : FName) (args : List String)
    (c : Option EntityId) (s : State) (h : Bool) (t : State)
    (hrun : fireUser f self m args c s = .ok (h, t)) : h = true := by
  unfold fireUser at hrun
  cases hq : f self m args (some self) c s with
  | error x => rw [hq] at hrun; cases hrun
  | ok v =>
    obtain ⟨k, s1⟩ := v
    rw [hq] at hrun
    simp only [Except.ok.injEq, Prod.mk.injEq] at hrun
    exact hrun.1.symm

theorem FireInput_user_outcome (find : NameIndex) (fuel : Nat) (self : EntityId) (n : FName)
    (args : List String) (c a : Option EntityId) (s : State) (hu : isFireUser n = true) :
    (∃ t, FireInput find (fuel + 1) self n args c a s = .ok (true, t)) ∨
      FireInput find (fuel + 1) self n args c a s = .error Fault.outOfRange := by
  have hnf := FireInput_no_fuel find fuel self n args c a s
  cases hq : FireInput find (fuel + 1) self n args c a s with
  | error x =>
    cases x with
    | outOfRange => exact Or.inr rfl
    | outOfFuel => exact absurd hq hnf
  | ok v =>
    obtain ⟨h, t⟩ := v
    left
    refine ⟨t, ?_⟩
    have hall := FireInputWith_user (FireOutput find (fuel + 1)) self args c a s
    simp only [isFireUser, Bool.or_eq_true, beq_iff_eq] at hu
    unfold FireInput at hq
    have hh : h = true := by
      rcases hu with ((h1 | h1) | h1) | h1
      · rw [h1, hall.1] at hq
        exact fireUser_handled _ _ _ _ _ _ _ _ hq
      · rw [h1, hall.2.1] at hq
        exact fireUser_handled _ _ _ _ _ _ _ _ hq
      · rw [h1, hall.2.2.1] at hq
        exact fireUser_handled _ _ _ _ _ _ _ _ hq
      · rw [h1, hall.2.2.2] at hq
        exact fireUser_handled _ _ _ _ _ _ _ _ hq
    rw [hh]

/-! ## One pair of `ResetLogicOutputs` -/

theorem fields_split {α : Type} (f : List α) (h : 4 ≤ f.length) :
    ∃ a b mid d o, f = a :: b :: (mid ++ [d, o]) := by
  match f, h with
  | a :: b :: rest, h =>
    have hr : 2 ≤ rest.length := by simp at h; omega
    refine ⟨a, b, rest.take (rest.length - 2), ?_⟩
    have hd : (rest.drop (rest.length - 2)).length = 2 := by simp; omega
    match hq : rest.drop (rest.length - 2), hd with
    | [d, o], _ =>
      refine ⟨d, o, ?_⟩
      rw [← hq, List.take_append_drop]

theorem TArray.elem_of {α : Type} (l : List α) (i : Nat) (x : α) (h : l[i]? = some x) :
    TArray.elem l i = .ok x := by
  simp [TArray.elem, h]

theorem TArray.Last_one {α : Type} (pre : List α) (d o : α) :
    TArray.Last (pre ++ [d, o]) 1 = .ok d := by
  have hlt : 1 < (pre ++ [d, o]).length := by simp
  have hidx : (pre ++ [d, o]).length - 1 - 1 = pre.length := by simp
  rw [TArray.Last, if_pos hlt, hidx]
  exact TArray.elem_of _ _ _ (getElem?_mid pre d [o])

theorem TArray.Last_zero {α : Type} (pre : List α) (d o : α) :
    TArray.Last (pre ++ [d, o]) 0 = .ok o := by
  have hlt : 0 < (pre ++ [d, o]).length := by simp
  have hidx : (pre ++ [d, o]).length - 0 - 1 = (pre ++ [d]).length := by simp
  have hsplit : pre ++ [d, o] = (pre ++ [d]) ++ [o] := by simp
  rw [TArray.Last, if_pos hlt, hidx]
  apply TArray.elem_of
  rw [hsplit]
  exact getElem?_mid (pre ++ [d]) o []

theorem TArray.RemoveAt_tail {α : Type} (pre : List α) (d o : α) :
    TArray.RemoveAt (pre ++ [d, o]) ((pre ++ [d, o]).length - 2) 2 = .ok pre := by
  have hidx : (pre ++ [d, o]).length - 2 = pre.length := by simp
  have hle : pre.length + 2 ≤ (pre ++ [d, o]).length := by simp
  rw [hidx, TArray.RemoveAt, if_pos hle]
  simp

theorem TArray.RemoveAt_head {α : Type} (x y : α) (mid : List α) :
    TArray.RemoveAt (x :: y :: mid) 0 2 = .ok mid := by
  have hle : 0 + 2 ≤ (x :: y :: mid).length := by simp
  rw [TArray.RemoveAt, if_pos hle]
  simp

theorem logicOutputOfPair_fields (eng : Engine) (Key : FName) (Value : String)
    (a b : String) (mid : List String) (d o : String)
    (hf : eng.ParseIntoArray Value = a :: b :: (mid ++ [d, o])) :
    logicOutputOfPair eng Key Value =
      .ok (some
        { TargetName := eng.Trim a
          OutputName := Key
          InputName := eng.Trim b
          Delay := eng.Atof d
          Once := eng.Atoi o != -1
          Params := mid }) := by
  unfold logicOutputOfPair
  simp only [hf]
  have hlen : (a :: b :: (mid ++ [d, o])).length ≥ 4 := by simp
  have h0 : TArray.elem (a :: b :: (mid ++ [d, o])) 0 = .ok a :=
    TArray.elem_of _ _ _ (by simp)
  have hset0 : (a :: b :: (mid ++ [d, o])).set 0 (eng.Trim a) =
      eng.Trim a :: b :: (mid ++ [d, o]) := rfl
  have h1 : TArray.elem (eng.Trim a :: b :: (mid ++ [d, o])) 1 = .ok b :=
    TArray.elem_of _ _ _ (by simp)
  have hset1 : (eng.Trim a :: b :: (mid ++ [d, o])).set 1 (eng.Trim b) =
      (eng.Trim a :: eng.Trim b :: mid) ++ [d, o] := rfl
  rw [if_pos hlen, h0]
  simp only [hset0, h1, hset1, TArray.Last_one, TArray.Last_zero, TArray.RemoveAt_tail,
    TArray.RemoveAt_head]

theorem logicOutputOfPair_short (eng : Engine) (Key : FName) (Value : String)
    (h : (eng.ParseIntoArray Value).length < 4) :
    logicOutputOfPair eng Key Value = .ok none := by
  unfold logicOutputOfPair
  simp only []
  rw [if_neg (by omega)]

theorem logicOutputOfPair_wellFormed (eng : Engine) (Key : FName) (Value : String)
    (h : 4 ≤ (eng.ParseIntoArray Value).length) :
    ∃ lo, logicOutputOfPair eng Key Value = .ok (some lo) := by
  obtain ⟨a, b, mid, d, o, hf⟩ := fields_split _ h
  exact ⟨_, logicOutputOfPair_fields eng Key Value a b mid d o hf⟩

theorem resetLoop_total (eng : Engine) (KeyValues : List (FName × String)) :
    ∃ L, (∀ acc, resetLoop eng KeyValues acc = .ok (acc ++ L)) ∧
      List.Forall₂ (fun pair lo => logicOutputOfPair eng pair.1 pair.2 = .ok (some lo))
        (KeyValues.filter (wellFormed eng)) L := by
  induction KeyValues with
  | nil => exact ⟨[], fun acc => by simp [resetLoop], by simp⟩
  | cons pair rest ih =>
    obtain ⟨L, hL, hrel⟩ := ih
    by_cases hw : 4 ≤ (eng.ParseIntoArray pair.2).length
    · obtain ⟨lo, hlo⟩ := logicOutputOfPair_wellFormed eng pair.1 pair.2 hw
      refine ⟨lo :: L, ?_, ?_⟩
      · intro acc
        rw [resetLoop, hlo]
        simp only []
        rw [hL]
        simp
      · have hwf : wellFormed eng pair = true := by simp [wellFormed, hw]
        rw [List.filter_cons_of_pos hwf]
        exact List.Forall₂.cons hlo hrel
    · refine ⟨L, ?_, ?_⟩
      · intro acc
        rw [resetLoop, logicOutputOfPair_short eng pair.1 pair.2 (by omega)]
        simp only []
        exact hL acc
      · have hwf : ¬ (wellFormed eng pair = true) := by simp [wellFormed, hw]
        rw [List.filter_cons_of_neg hwf]
        exact hrel

/-! ## The returned count -/

theorem fireTargets_outcomes (g : InputFn) (self : EntityId) (n : FName)
    (arguments : List String) (c : Option EntityId) (targets : List EntityId)
    (result : Nat) (s : State) :
    fireTargets g self n arguments c targets result s =
      match targetOutcomes g self n arguments c targets s with
      | .error e => .error e
      | .ok (log, t) => .ok (result + log.countP (fun p => p.2), t) := by
  induction targets generalizing result s with
  | nil => simp [fireTargets, targetOutcomes]
  | cons e rest ih =>
    rw [fireTargets, targetOutcomes]
    cases hq : g e n arguments (some self) c s with
    | error x => rfl
    | ok v =>
      obtain ⟨handled, s1⟩ := v
      simp only []
      rw [ih]
      cases hr : targetOutcomes g self n arguments c rest s1 with
      | error x => rfl
      | ok w =>
        obtain ⟨log, t⟩ := w
        cases handled with
        | false => simp [List.countP_cons]
        | true =>
          simp [List.countP_cons]
          omega

theorem fireLoop_outcomes (find : NameIndex) (g : InputFn) (self : EntityId)
    (args : List String) (c a : Option EntityId) (toFire : List FEntityLogicOutput)
    (result : Nat) (s : State) :
    fireLoop find g self args c a toFire result s =
      match loopOutcomes find g self args c a toFire s with
      | .error e => .error e
      | .ok (log, t) => .ok (result + handledCount log, t) := by
  induction toFire generalizing result s with
  | nil => simp [fireLoop, loopOutcomes, handledCount]
  | cons lo rest ih =>
    rw [fireLoop, loopOutcomes]
    cases hp : prepareArguments lo.Params args with
    | error x => rfl
    | ok arguments =>
      simp only []
      rw [fireTargets_outcomes]
      cases hq : targetOutcomes g self lo.InputName arguments c
          (resolveTargets find s.world self c a lo.TargetName) s with
      | error x => rfl
      | ok v =>
        obtain ⟨log1, s1⟩ := v
        simp only []
        rw [ih]
        cases hr : loopOutcomes find g self args c a rest s1 with
        | error x => rfl
        | ok w =>
          obtain ⟨log2, t⟩ := w
          simp only [handledCount, List.countP_append, List.countP_map, Except.ok.injEq,
            Prod.mk.injEq, and_true]
          have : List.countP ((fun p : FEntityLogicOutput × EntityId × Bool => p.2.2) ∘
              fun p : EntityId × Bool => (lo, p.1, p.2)) log1 =
              List.countP (fun p : EntityId × Bool => p.2) log1 := rfl
          rw [this]
          omega

/-! ## Dispatches that deliver nothing -/

theorem fireLoop_quiet (find : NameIndex) (g : InputFn) (self : EntityId)
    (args : List String) (c a : Option EntityId) (w : World)
    (toFire : List FEntityLogicOutput)
    (hq : ∀ lo ∈ toFire, ∀ (arguments : List String) (result : Nat) (s : State),
      s.world = w →
      ∃ t, fireTargets g self lo.InputName arguments c
        (resolveTargets find s.world self c a lo.TargetName) result s = .ok (result, t) ∧
        t.world = w)
    (result : Nat) (s : State) (hs : s.world = w) :
    (∀ r t, fireLoop find g self args c a toFire result s = .ok (r, t) →
      r = result ∧ t.world = w) ∧
    ((∀ lo ∈ toFire, args.length ≤ lo.Params.length) →
      ∃ t, fireLoop find g self args c a toFire result s = .ok (result, t) ∧ t.world = w) := by
  induction toFire generalizing s with
  | nil =>
    constructor
    · intro r t h
      simp only [fireLoop, Except.ok.injEq, Prod.mk.injEq] at h
      exact ⟨h.1.symm, by rw [← h.2]; exact hs⟩
    · intro _
      exact ⟨s, rfl, hs⟩
  | cons lo rest ih =>
    have hrest : ∀ lo1 ∈ rest, ∀ (arguments : List String) (result : Nat) (s : State),
        s.world = w →
        ∃ t, fireTargets g self lo1.InputName arguments c
          (resolveTargets find s.world self c a lo1.TargetName) result s = .ok (result, t) ∧
          t.world = w := fun lo1 h1 => hq lo1 (List.mem_cons_of_mem _ h1)
    constructor
    · intro r t h
      rw [fireLoop] at h
      cases hp : prepareArguments lo.Params args with
      | error x => rw [hp] at h; cases h
      | ok arguments =>
        rw [hp] at h
        simp only [] at h
        obtain ⟨t1, ht1, hw1⟩ := hq lo (List.mem_cons_self _ _) arguments result s hs
        rw [ht1] at h
        exact (ih hrest t1 hw1).1 r t h
    · intro hfit
      rw [fireLoop, prepareArguments_fits _ _ (hfit lo (List.mem_cons_self _ _))]
      simp only []
      obtain ⟨t1, ht1, hw1⟩ := hq lo (List.mem_cons_self _ _) _ result s hs
      rw [ht1]
      exact (ih hrest t1 hw1).2 (fun lo1 h1 => hfit lo1 (List.mem_cons_of_mem _ h1))

theorem fireTargets_nil_targets (g : InputFn) (self : EntityId) (n : FName)
    (arguments : List String) (c : Option EntityId) (result : Nat) (s : State) :
    fireTargets g self n arguments c [] result s = .ok (result, s) := rfl

theorem fireLoop_no_targets (find : NameIndex) (g : InputFn) (self : EntityId)
    (args : List String) (c a : Option EntityId) (toFire : List FEntityLogicOutput)
    (s : State)
    (hempty : ∀ lo ∈ toFire, resolveTargets find s.world self c a lo.TargetName = [])
    (result : Nat) :
    (∀ r t, fireLoop find g self args c a toFire result s = .ok (r, t) → r = result ∧ t = s) ∧
    ((∀ lo ∈ toFire, args.length ≤ lo.Params.length) →
      fireLoop find g self args c a toFire result s = .ok (result, s)) := by
  induction toFire with
  | nil =>
    constructor
    · intro r t h
      simp only [fireLoop, Except.ok.injEq, Prod.mk.injEq] at h
      exact ⟨h.1.symm, h.2.symm⟩
    · intro _
      rfl
  | cons lo rest ih =>
    have ih1 := ih (fun lo1 h1 => hempty lo1 (List.mem_cons_of_mem _ h1))
    have he := hempty lo (List.mem_cons_self _ _)
    constructor
    · intro r t h
      rw [fireLoop] at h
      cases hp : prepareArguments lo.Params args with
      | error x => rw [hp] at h; cases h
      | ok arguments =>
        rw [hp] at h
        simp only [he, fireTargets_nil_targets] at h
        exact ih1.1 r t h
    · intro hfit
      rw [fireLoop, prepareArguments_fits _ _ (hfit lo (List.mem_cons_self _ _))]
      simp only [he, fireTargets_nil_targets]
      exact ih1.2 (fun lo1 h1 => hfit lo1 (List.mem_cons_of_mem _ h1))

/-! ## The record of activations is not read -/

theorem fireUser_blind {f : OutputFn} (hf : OutputBlind f) (self : EntityId) (m : FName)
    (args : List String) (c : Option EntityId) (s1 s2 : State) (h : s1.world = s2.world) :
    SameOutcome (fireUser f self m args c s1) (fireUser f self m args c s2) := by
  have hq := hf self m args (some self) c s1 s2 h
  unfold fireUser
  cases h1 : f self m args (some self) c s1 with
  | error e1 =>
    cases h2 : f self m args (some self) c s2 with
    | error e2 => rw [h1, h2] at hq; exact hq
    | ok v2 => rw [h1, h2] at hq; exact hq.elim
  | ok v1 =>
    cases h2 : f self m args (some self) c s2 with
    | error e2 => rw [h1, h2] at hq; exact hq.elim
    | ok v2 =>
      obtain ⟨k1, t1⟩ := v1
      obtain ⟨k2, t2⟩ := v2
      rw [h1, h2] at hq
      exact ⟨rfl, hq.2⟩

theorem FireInputWith_blind_user {f : OutputFn} (hf : OutputBlind f) (self : EntityId)
    (n : FName) (args : List String) (c a1 a2 : Option EntityId) (s1 s2 : State)
    (hu : isFireUser n = true) (h : s1.world = s2.world) :
    SameOutcome (FireInputWith f self n args c a1 s1) (FireInputWith f self n args c a2 s2) := by
  have hall1 := FireInputWith_user f self args c a1 s1
  have hall2 := FireInputWith_user f self args c a2 s2
  simp only [isFireUser, Bool.or_eq_true, beq_iff_eq] at hu
  rcases hu with ((h1 | h1) | h1) | h1
  · rw [h1, hall1.1, hall2.1]
    exact fireUser_blind hf _ _ _ _ _ _ h
  · rw [h1, hall1.2.1, hall2.2.1]
    exact fireUser_blind hf _ _ _ _ _ _ h
  · rw [h1, hall1.2.2.1, hall2.2.2.1]
    exact fireUser_blind hf _ _ _ _ _ _ h
  · rw [h1, hall1.2.2.2, hall2.2.2.2]
    exact fireUser_blind hf _ _ _ _ _ _ h

theorem FireInputWith_blind {f : OutputFn} (hf : OutputBlind f) :
    InputBlind (FireInputWith f) := by
  refine ⟨?_, fun self n args c a1 a2 s1 s2 hu h =>
    FireInputWith_blind_user hf self n args c a1 a2 s1 s2 hu h⟩
  intro self n args c a s1 s2 h
  cases hu : isFireUser n with
  | true => exact FireInputWith_blind_user hf self n args c a a s1 s2 hu h
  | false =>
    rw [FireInputWith_plain f self n args c a s1 hu, FireInputWith_plain f self n args c a s2 hu]
    split
    · exact ⟨rfl, by simp [Destroy, State.record, h]⟩
    · split
      · exact ⟨rfl, h⟩
      · exact ⟨rfl, h⟩

theorem fireTargets_blind {g : InputFn} (hg : InputBlind g) (self : EntityId) (n : FName)
    (arguments : List String) (c : Option EntityId) (targets : List EntityId) (result : Nat)
    (s1 s2 : State) (h : s1.world = s2.world) :
    SameOutcome (fireTargets g self n arguments c targets result s1)
      (fireTargets g self n arguments c targets result s2) := by
  induction targets generalizing result s1 s2 with
  | nil => exact ⟨rfl, h⟩
  | cons e rest ih =>
    have hq := hg.1 e n arguments (some self) c s1 s2 h
    rw [fireTargets, fireTargets]
    cases h1 : g e n arguments (some self) c s1 with
    | error e1 =>
      cases h2 : g e n arguments (some self) c s2 with
      | error e2 => rw [h1, h2] at hq; exact hq
      | ok v2 => rw [h1, h2] at hq; exact hq.elim
    | ok v1 =>
      cases h2 : g e n arguments (some self) c s2 with
      | error e2 => rw [h1, h2] at hq; exact hq.elim
      | ok v2 =>
        obtain ⟨k1, t1⟩ := v1
        obtain ⟨k2, t2⟩ := v2
        rw [h1, h2] at hq
        simp only []
        rw [hq.1]
        exact ih _ t1 t2 hq.2

theorem fireLoop_blind (find : NameIndex) {g : InputFn} (hg : InputBlind g) (self : EntityId)
    (args : List String) (c a : Option EntityId) (toFire : List FEntityLogicOutput)
    (result : Nat) (s1 s2 : State) (h : s1.world = s2.world) :
    SameOutcome (fireLoop find g self args c a toFire result s1)
      (fireLoop find g self args c a toFire result s2) := by
  induction toFire generalizing result s1 s2 with
  | nil => exact ⟨rfl, h⟩
  | cons lo rest ih =>
    rw [fireLoop, fireLoop]
    cases hp : prepareArguments lo.Params args with
    | error x => exact rfl
    | ok arguments =>
      simp only []
      have hq := fireTargets_blind hg self lo.InputName arguments c
        (resolveTargets find s1.world self c a lo.TargetName) result s1 s2 h
      rw [← h]
      cases h1 : fireTargets g self lo.InputName arguments c
          (resolveTargets find s1.world self c a lo.TargetName) result s1 with
      | error e1 =>
        cases h2 : fireTargets g self lo.InputName arguments c
            (resolveTargets find s1.world self c a lo.TargetName) result s2 with
        | error e2 => rw [h1, h2] at hq; exact hq
        | ok v2 => rw [h1, h2] at hq; exact hq.elim
      | ok v1 =>
        cases h2 : fireTargets g self lo.InputName arguments c
            (resolveTargets find s1.world self c a lo.TargetName) result s2 with
        | error e2 => rw [h1, h2] at hq; exact hq.elim
        | ok v2 =>
          obtain ⟨k1, t1⟩ := v1
          obtain ⟨k2, t2⟩ := v2
          rw [h1, h2] at hq
          simp only []
          rw [hq.1]
          exact ih _ t1 t2 hq.2

theorem FireOutput_blind (find : NameIndex) (fuel : Nat) : OutputBlind (FireOutput find fuel) := by
  induction fuel with
  | zero =>
    intro self n args c a s1 s2 _
    exact rfl
  | succ fuel ih =>
    intro self n args c a s1 s2 h
    rw [FireOutput_eq_fireLoop, FireOutput_eq_fireLoop, ← h]
    apply fireLoop_blind find (FireInputWith_blind ih)
    simp [State.setLogicOutputs, State.record, h]

/-! ## Claims -/

/-- C1 (code defect).  In the end-to-end scenario the claim expects one
`FireInput("Trigger", [], caller = trigger1, activator = player)` on `relay1`
and the result 1.  The code returns 0 and starts no `FireInput` at all: the
scan compares the fired name with `InputName`, so the connection stored for
output `OnTrigger` is not collected.  The store of `trigger1` is unchanged. -/
theorem C1_scenario_fires_nothing (fuel : Nat) :
    observe trigger1
        (FireOutput scenarioIndex (fuel + 1) trigger1 "OnTrigger" [] none (some player)
          scenarioStart) =
      .ok (0, [Call.output trigger1 "OnTrigger" [] none (some player)],
        [triggerConnection], []) := by
  rfl

/-- C2 (code defect).  The scan never faults and collects exactly the entries
whose `InputName` equals the fired name; `OutputName` plays no part.  In
particular the connection stored for output `OnTrigger` with input `Trigger` is
not collected when `OnTrigger` fires and is collected when `Trigger` fires. -/
theorem C2_scan_compares_input_name :
    (∀ (L : List FEntityLogicOutput) (n : FName),
      ∃ store toFire, gather n L = .ok (store, toFire) ∧
        ∀ c, c ∈ toFire ↔ (c ∈ L ∧ c.InputName = n)) ∧
    triggerConnection.OutputName = "OnTrigger" ∧
    gather "OnTrigger" [triggerConnection] = .ok ([triggerConnection], []) ∧
    triggerConnection.OutputName ≠ "Trigger" ∧
    gather "Trigger" [triggerConnection] = .ok ([triggerConnection], [triggerConnection]) := by
  refine ⟨?_, by decide, by decide, by decide, by decide⟩
  intro L n
  refine ⟨_, _, gather_eq n L, ?_⟩
  intro c
  simp [scanTest]

/-- C3 (code defect).  `trigger1` fires the name its connection is collected
under, with caller `bystander` and activator `player`.  The one `FireInput`
issued on `relay1` has caller `trigger1`, as claimed, but its activator is
`bystander`, the caller given to `FireOutput`; the activator `player` is not
forwarded. -/
theorem C3_activator_not_forwarded (fuel : Nat) :
    observe trigger1
        (FireOutput scenarioIndex (fuel + 1) trigger1 "Trigger" [] (some bystander)
          (some player) scenarioStart) =
      .ok (1,
        [Call.output trigger1 "Trigger" [] (some bystander) (some player),
         Call.input relay1 "Trigger" [] (some trigger1) (some bystander),
         Call.hook relay1 "Trigger" [] (some trigger1) (some bystander)],
        [triggerConnection], []) := by
  rfl

/-- C4.  One-shot consumption.  The scan never faults; the store it leaves
holds no entry that was collected and has `Once` set, and a second scan for the
same name on that store collects no entry that the first scan collected with
`Once` set.  The same holds for the store of the firing entity after a whole
`FireOutput` that returns, whatever the nested dispatches did. -/
theorem C4_one_shot_consumed (L : List FEntityLogicOutput) (n : FName) :
    ∃ store toFire, gather n L = .ok (store, toFire) ∧
      (∀ c ∈ store, ¬ (c ∈ toFire ∧ c.Once = true)) ∧
      (∃ store2 toFire2, gather n store = .ok (store2, toFire2) ∧
        ∀ c ∈ toFire2, ¬ (c ∈ toFire ∧ c.Once = true)) ∧
      (∀ (find : NameIndex) (fuel : Nat) (self : EntityId) (args : List String)
          (caller activator : Option EntityId) (s t : State) (r : Nat),
        s.world.LogicOutputs self = L →
        FireOutput find fuel self n args caller activator s = .ok (r, t) →
          (∀ c ∈ t.world.LogicOutputs self, ¬ (c ∈ toFire ∧ c.Once = true)) ∧
          ∃ store3 toFire3,
            gather n (t.world.LogicOutputs self) = .ok (store3, toFire3) ∧
            ∀ c ∈ toFire3, ¬ (c ∈ toFire ∧ c.Once = true)) := by
  refine ⟨_, _, gather_eq n L, ?_, ⟨_, _, gather_eq n _, ?_⟩, ?_⟩
  · intro c hc
    exact survivor_not_consumed n L c (List.mem_filter.1 hc).2
  · intro c hc
    have hc1 : c ∈ (L.filter (survives n)).filter (scanTest n) := List.mem_reverse.1 hc
    have hc2 : c ∈ L.filter (survives n) := (List.mem_filter.1 hc1).1
    exact survivor_not_consumed n L c (List.mem_filter.1 hc2).2
  · intro find fuel self args caller activator s t r hL hrun
    have hsub := FireOutput_store_sublist find fuel self n args caller activator s t r hrun
    rw [hL] at hsub
    have hsurv : ∀ c ∈ t.world.LogicOutputs self, survives n c = true :=
      fun c hc => (List.mem_filter.1 (hsub.subset hc)).2
    refine ⟨fun c hc => survivor_not_consumed n L c (hsurv c hc), _, _, gather_eq n _, ?_⟩
    intro c hc
    have hc1 : c ∈ (t.world.LogicOutputs self).filter (scanTest n) := List.mem_reverse.1 hc
    exact survivor_not_consumed n L c (hsurv c (List.mem_filter.1 hc1).1)

/-- Witness for C4: entity `trigger1` holding `threeOnX` fires `X`; the call
returns and leaves only the entry without `Once`. -/
theorem C4_one_shot_consumed_witness :
    FireOutput scenarioIndex 1 trigger1 "X" [] none none threeOnXStart =
        .ok (0, threeOnXFired) ∧
      ∀ c ∈ threeOnXFired.world.LogicOutputs trigger1,
        ¬ (c ∈ [xOnceC, xKeepB, xOnceA] ∧ c.Once = true) := by
  obtain ⟨store, toFire, hg, _, _, hfull⟩ := C4_one_shot_consumed threeOnX "X"
  have hconc : gather "X" threeOnX = .ok ([xKeepB], [xOnceC, xKeepB, xOnceA]) := by decide
  rw [hconc] at hg
  simp only [Except.ok.injEq, Prod.mk.injEq] at hg
  rw [← hg.2] at hfull
  exact ⟨rfl, (hfull scenarioIndex 1 trigger1 [] none none threeOnXStart threeOnXFired 0
    rfl rfl).1⟩

/-- C5 (code defect).  The scan never faults and leaves the list `L` without
the entries that have `Once` set and whose `InputName` is the fired name;
`OutputName` plays no part.  So for `threeOnOutputX`, three connections stored
for output `X` with input `Trigger`: firing `Trigger`, an output none of them
is stored for, deletes the two one-shot entries, and firing `X`, the output
all of them are stored for, deletes nothing. -/
theorem C5_store_follows_input_name :
    (∀ (L : List FEntityLogicOutput) (n : FName),
      ∃ store toFire, gather n L = .ok (store, toFire) ∧
        store = L.filter (fun c => !(c.InputName == n && c.Once))) ∧
    (∀ c ∈ threeOnOutputX, c.OutputName = "X" ∧ c.OutputName ≠ "Trigger") ∧
    gather "Trigger" threeOnOutputX =
      .ok ([onXKeepB], [onXOnceC, onXKeepB, onXOnceA]) ∧
    onXOnceA ∉ [onXKeepB] ∧ onXOnceC ∉ [onXKeepB] ∧
    gather "X" threeOnOutputX = .ok (threeOnOutputX, []) ∧
    onXOnceA ∈ threeOnOutputX ∧ onXOnceA.Once = true := by
  refine ⟨?_, by decide, by decide, by decide, by decide, by decide, by decide, by decide⟩
  intro L n
  exact ⟨_, _, gather_eq n L, rfl⟩

/-- C6 (code defect).  The scan never faults and the collected list, read
backwards, is the sublist of `L` of the entries whose `InputName` is the fired
name, each once; `OutputName` plays no part.  So for `threeOnOutputX`, three
connections stored for output `X` of which two are one-shot, firing `X`
collects none and leaves all three, where the claim has three collected and
one left. -/
theorem C6_scan_counts_input_name :
    (∀ (L : List FEntityLogicOutput) (n : FName),
      ∃ store toFire, gather n L = .ok (store, toFire) ∧
        toFire.reverse = L.filter (fun c => c.InputName == n) ∧
        toFire.length = L.countP (fun c => c.InputName == n) ∧
        store.length + L.countP (fun c => c.InputName == n && c.Once) = L.length) ∧
    threeOnOutputX.countP (fun c => c.OutputName == "X") = 3 ∧
    threeOnOutputX.countP (fun c => c.OutputName == "X" && c.Once) = 2 ∧
    (∃ store toFire, gather "X" threeOnOutputX = .ok (store, toFire) ∧
      toFire.length = 0 ∧ store.length = 3) := by
  refine ⟨?_, by decide, by decide, ⟨threeOnOutputX, [], by decide, rfl, rfl⟩⟩
  intro L n
  have hcount : (L.filter (survives n)).length +
      L.countP (fun c => scanTest n c && c.Once) = L.length := by
    rw [← List.countP_eq_length_filter,
      List.length_eq_countP_add_countP (fun c => scanTest n c && c.Once) L]
    rw [Nat.add_comm]
    congr 1
    apply List.countP_congr
    intro c _
    simp [survives]
  refine ⟨_, _, gather_eq n L, List.reverse_reverse _, ?_, hcount⟩
  rw [List.length_reverse, List.countP_eq_length_filter]
  rfl

/-- C7.  Parameter merge precedence.  When the runtime arguments `A` do not
outnumber the stored parameters `P`, the preparation returns a list `M` of the
length of `P`; at every position `i`, `M` holds `A[i]` when `i` is below the
length of `A` and `P[i]` is the empty string, and `P[i]` otherwise.  For
`P = ["", "B", ""]` and `A = ["X", "Y", "Z"]` the result is `["X", "B", "Z"]`. -/
theorem C7_merge_precedence :
    (∀ P A : List String, A.length ≤ P.length →
      ∃ M, prepareArguments P A = .ok M ∧ M.length = P.length ∧
        ∀ i, M[i]? = if i < A.length ∧ P[i]? = some "" then A[i]? else P[i]?) ∧
    prepareArguments ["", "B", ""] ["X", "Y", "Z"] = .ok ["X", "B", "Z"] := by
  refine ⟨?_, by decide⟩
  intro P A h
  exact ⟨_, prepareArguments_fits P A h, overlay_length P A, overlay_getElem? P A⟩

/-- Witness for C7: two arguments merged into three stored parameters. -/
theorem C7_merge_precedence_witness :
    ∃ M, prepareArguments ["", "B", ""] ["X", "Y"] = .ok M ∧
      M.length = ["", "B", ""].length ∧
      ∀ i, M[i]? =
        if i < ["X", "Y"].length ∧ ["", "B", ""][i]? = some "" then ["X", "Y"][i]?
        else ["", "B", ""][i]? :=
  C7_merge_precedence.1 ["", "B", ""] ["X", "Y"] (by decide)

/-- C8 (code defect).  When the runtime arguments outnumber the stored
parameters, the preparation does not complete: at the first position beyond the
parameters the guard `i > arguments.Num()` is false and `arguments[i]` is read
out of range.  Nothing is appended. -/
theorem C8_surplus_args_out_of_range (P A : List String) (h : P.length < A.length) :
    prepareArguments P A = .error Fault.outOfRange :=
  prepareArguments_overrun P A h

/-- Witness for C8: no stored parameter, one runtime argument. -/
theorem C8_surplus_args_out_of_range_witness :
    ([] : List String).length < ["X"].length ∧
      prepareArguments [] ["X"] = .error Fault.outOfRange :=
  ⟨by decide, C8_surplus_args_out_of_range [] ["X"] (by decide)⟩

/-- C10.  Target resolution.  `!self` resolves to the firing entity alone,
whatever caller and activator are; `!activator` and `!caller` resolve to that
entity alone when it is present and to nothing when it is absent; every other
name, the remaining special names included, resolves to what the name index
returns for it. -/
theorem C10_target_resolution (find : NameIndex) (w : World) (E : EntityId)
    (c a : Option EntityId) :
    resolveTargets find w E c a "!self" = [E] ∧
    (∀ x, resolveTargets find w E c (some x) "!activator" = [x]) ∧
    resolveTargets find w E c none "!activator" = [] ∧
    (∀ x, resolveTargets find w E (some x) a "!caller" = [x]) ∧
    resolveTargets find w E none a "!caller" = [] ∧
    (∀ spec : FName, spec ≠ "!self" → spec ≠ "!activator" → spec ≠ "!caller" →
      resolveTargets find w E c a spec = find w spec) ∧
    resolveTargets find w E c a "!player" = find w "!player" ∧
    resolveTargets find w E c a "!pvsplayer" = find w "!pvsplayer" ∧
    resolveTargets find w E c a "!speechtarget" = find w "!speechtarget" ∧
    resolveTargets find w E c a "!picker" = find w "!picker" := by
  have hother : ∀ spec : FName, spec ≠ "!self" → spec ≠ "!activator" → spec ≠ "!caller" →
      resolveTargets find w E c a spec = find w spec := by
    intro spec h1 h2 h3
    simp [resolveTargets, tnActivator, tnCaller, tnSelf, h1, h2, h3]
  refine ⟨rfl, fun _ => rfl, rfl, fun _ => rfl, rfl, hother, ?_, ?_, ?_, ?_⟩
  · exact hother _ (by decide) (by decide) (by decide)
  · exact hother _ (by decide) (by decide) (by decide)
  · exact hother _ (by decide) (by decide) (by decide)
  · exact hother _ (by decide) (by decide) (by decide)

/-- Witness for C10: the literal name `relay1` in the scenario index. -/
theorem C10_target_resolution_witness :
    resolveTargets scenarioIndex scenarioStart.world trigger1 none (some player) "relay1" =
      [relay1] :=
  (C10_target_resolution scenarioIndex scenarioStart.world trigger1 none (some player)).2.2.2.2.2.1
    "relay1" (by decide) (by decide) (by decide)

/-- C11.  FireUserN causality.  `FireInput("FireUserN", args, caller = B,
activator = C)` on entity `A` is exactly the dispatch
`FireOutput("OnUserN", args, caller = A, activator = B)` on `A`, started after
the activation is recorded, followed by `return true`: the count the dispatch
returns is discarded and `C` is passed nowhere, so that another activator in
its place gives the same result and the same world.  Given room for one nested
dispatch, the call either reports handled or stops on the out-of-range read of
the argument preparation; it never runs out of depth. -/
theorem C11_fire_user_causality (find : NameIndex) (fuel : Nat) (A : EntityId)
    (args : List String) (B C : Option EntityId) (s : State) :
    (FireInput find fuel A "FireUser1" args B C s =
      match FireOutput find fuel A "OnUser1" args (some A) B
          (s.record (Call.input A "FireUser1" args B C)) with
      | .error e => .error e
      | .ok (_, t) => .ok (true, t)) ∧
    (FireInput find fuel A "FireUser2" args B C s =
      match FireOutput find fuel A "OnUser2" args (some A) B
          (s.record (Call.input A "FireUser2" args B C)) with
      | .error e => .error e
      | .ok (_, t) => .ok (true, t)) ∧
    (FireInput find fuel A "FireUser3" args B C s =
      match FireOutput find fuel A "OnUser3" args (some A) B
          (s.record (Call.input A "FireUser3" args B C)) with
      | .error e => .error e
      | .ok (_, t) => .ok (true, t)) ∧
    (FireInput find fuel A "FireUser4" args B C s =
      match FireOutput find fuel A "OnUser4" args (some A) B
          (s.record (Call.input A "FireUser4" args B C)) with
      | .error e => .error e
      | .ok (_, t) => .ok (true, t)) ∧
    (∀ n ∈ ["FireUser1", "FireUser2", "FireUser3", "FireUser4"],
      ∀ C2 : Option EntityId,
        SameOutcome (FireInput find fuel A n args B C s) (FireInput find fuel A n args B C2 s)) ∧
    (∀ n ∈ ["FireUser1", "FireUser2", "FireUser3", "FireUser4"],
      (∃ t, FireInput find (fuel + 1) A n args B C s = .ok (true, t)) ∨
        FireInput find (fuel + 1) A n args B C s = .error Fault.outOfRange) := by
  have huser : ∀ n ∈ ["FireUser1", "FireUser2", "FireUser3", "FireUser4"],
      isFireUser n = true := by
    intro n hn
    simp only [List.mem_cons, List.mem_singleton, List.not_mem_nil, or_false] at hn
    rcases hn with h | h | h | h <;> rw [h] <;> decide
  refine ⟨rfl, rfl, rfl, rfl, ?_, ?_⟩
  · intro n hn C2
    exact (FireInputWith_blind (FireOutput_blind find fuel)).2 A n args B C C2 s s
      (huser n hn) rfl
  · intro n hn
    exact FireInput_user_outcome find fuel A n args B C s (huser n hn)

/-- Witness for C11: `relay1` receives `FireUser2` from `trigger1` in the
scenario; it holds no connection, so the dispatch of `OnUser2` fires nothing
and the input is reported handled. -/
theorem C11_fire_user_causality_witness :
    observe relay1
        ((FireInput scenarioIndex 1 relay1 "FireUser2" ["x"] (some trigger1) (some player)
          scenarioStart).map (fun r => (0, r.2))) =
      .ok (0,
        [Call.input relay1 "FireUser2" ["x"] (some trigger1) (some player),
         Call.output relay1 "OnUser2" ["x"] (some relay1) (some trigger1)],
        [], []) ∧
    ((∃ t, FireInput scenarioIndex 1 relay1 "FireUser2" ["x"] (some trigger1) (some player)
        scenarioStart = .ok (true, t)) ∨
      FireInput scenarioIndex 1 relay1 "FireUser2" ["x"] (some trigger1) (some player)
        scenarioStart = .error Fault.outOfRange) :=
  ⟨rfl, (C11_fire_user_causality scenarioIndex 0 relay1 ["x"] (some trigger1) (some player)
    scenarioStart).2.2.2.2.2 "FireUser2" (by decide)⟩

/-- C12.  With the native hook, `FireInput` reports not handled exactly on the
name `AddOutput` (on every other name it reports handled whenever it returns).
`Kill` and `KillHierarchy` call `Destroy()` on the entity and report handled.
A name that is none of the built-in ones reaches the hook and is reported
handled, with the world, all stores included, left as it was. -/
theorem C12_not_handled_iff_add_output (find : NameIndex) (fuel : Nat) (A : EntityId)
    (n : FName) (args : List String) (c a : Option EntityId) (s : State) :
    ((∃ t, FireInput find fuel A n args c a s = .ok (false, t)) ↔ n = "AddOutput") ∧
    FireInput find fuel A "Kill" args c a s =
      .ok (true, Destroy A (s.record (Call.input A "Kill" args c a))) ∧
    FireInput find fuel A "KillHierarchy" args c a s =
      .ok (true, Destroy A (s.record (Call.input A "KillHierarchy" args c a))) ∧
    (∀ s1 : State, (Destroy A s1).world.Destroyed = s1.world.Destroyed ++ [A] ∧
      (Destroy A s1).world.LogicOutputs = s1.world.LogicOutputs) ∧
    (n ≠ "Kill" → n ≠ "KillHierarchy" → n ≠ "AddOutput" → n ≠ "FireUser1" →
      n ≠ "FireUser2" → n ≠ "FireUser3" → n ≠ "FireUser4" →
      ∃ t, FireInput find fuel A n args c a s = .ok (true, t) ∧ t.world = s.world ∧
        t.trace = s.trace ++ [Call.input A n args c a, Call.hook A n args c a]) := by
  refine ⟨⟨?_, ?_⟩, rfl, rfl, fun _ => ⟨rfl, rfl⟩, ?_⟩
  · rintro ⟨t, ht⟩
    unfold FireInput at ht
    cases hu : isFireUser n with
    | false =>
      rw [FireInputWith_plain _ A n args c a s hu] at ht
      by_cases hk : n = inKill ∨ n = inKillHierarchy
      · rw [if_pos hk] at ht
        simp at ht
      · rw [if_neg hk] at ht
        by_cases ha : n = inAddOutput
        · exact ha
        · rw [if_neg ha] at ht
          simp at ht
    | true =>
      have hall := FireInputWith_user (FireOutput find fuel) A args c a s
      simp only [isFireUser, Bool.or_eq_true, beq_iff_eq] at hu
      have hh : false = true := by
        rcases hu with ((h1 | h1) | h1) | h1
        · rw [h1, hall.1] at ht
          exact fireUser_handled _ _ _ _ _ _ _ _ ht
        · rw [h1, hall.2.1] at ht
          exact fireUser_handled _ _ _ _ _ _ _ _ ht
        · rw [h1, hall.2.2.1] at ht
          exact fireUser_handled _ _ _ _ _ _ _ _ ht
        · rw [h1, hall.2.2.2] at ht
          exact fireUser_handled _ _ _ _ _ _ _ _ ht
      cases hh
  · intro hn
    rw [hn]
    exact ⟨_, rfl⟩
  · intro h1 h2 h3 h4 h5 h6 h7
    have hu : isFireUser n = false := by
      simp [isFireUser, inFireUser1, inFireUser2, inFireUser3, inFireUser4, h4, h5, h6, h7]
    have hk : ¬ (n = inKill ∨ n = inKillHierarchy) := by
      simp [inKill, inKillHierarchy, h1, h2]
    have ha : ¬ n = inAddOutput := h3
    refine ⟨OnInputFired_Implementation A n args c a (s.record (Call.input A n args c a)),
      ?_, rfl, ?_⟩
    · unfold FireInput
      rw [FireInputWith_plain _ A n args c a s hu, if_neg hk, if_neg ha]
    · simp [OnInputFired_Implementation, State.record]

/-- Witness for C12: the name `Trigger` on `relay1` in the scenario. -/
theorem C12_not_handled_iff_add_output_witness :
    ∃ t, FireInput scenarioIndex 0 relay1 "Trigger" [] (some trigger1) (some player)
        scenarioStart = .ok (true, t) ∧ t.world = scenarioStart.world ∧
      t.trace = scenarioStart.trace ++
        [Call.input relay1 "Trigger" [] (some trigger1) (some player),
         Call.hook relay1 "Trigger" [] (some trigger1) (some player)] :=
  (C12_not_handled_iff_add_output scenarioIndex 0 relay1 "Trigger" [] (some trigger1)
    (some player) scenarioStart).2.2.2.2 (by decide) (by decide) (by decide) (by decide)
    (by decide) (by decide) (by decide)

/-- C13.  Reset field layout.  When the value of a pair splits into fields
`f[0] .. f[n-1]` with `n ≥ 4`, the connection built for the pair has
`Params = [f[2], .., f[n-3]]` in that order (`n - 4` entries), `Once` set
exactly when `Atoi` of the last field is not `-1`, and `Delay` equal to `Atof`
of the field before the last. -/
theorem C13_reset_field_layout (eng : Engine) (k : FName) (v : String)
    (h : 4 ≤ (eng.ParseIntoArray v).length) :
    ∃ lo, logicOutputOfPair eng k v = .ok (some lo) ∧
      lo.Params = ((eng.ParseIntoArray v).drop 2).take ((eng.ParseIntoArray v).length - 4) ∧
      lo.Params.length = (eng.ParseIntoArray v).length - 4 ∧
      (∀ i, i < (eng.ParseIntoArray v).length - 4 →
        lo.Params[i]? = (eng.ParseIntoArray v)[i + 2]?) ∧
      (∀ x, (eng.ParseIntoArray v)[(eng.ParseIntoArray v).length - 1]? = some x →
        (lo.Once = true ↔ eng.Atoi x ≠ -1)) ∧
      (∀ y, (eng.ParseIntoArray v)[(eng.ParseIntoArray v).length - 2]? = some y →
        lo.Delay = eng.Atof y) := by
  obtain ⟨a, b, mid, d, o, hf⟩ := fields_split _ h
  refine ⟨_, logicOutputOfPair_fields eng k v a b mid d o hf, ?_⟩
  rw [hf]
  have hlen : (a :: b :: (mid ++ [d, o])).length - 4 = mid.length := by simp
  have hlast : (a :: b :: (mid ++ [d, o])).length - 1 = (a :: b :: (mid ++ [d])).length := by
    simp
  have hprev : (a :: b :: (mid ++ [d, o])).length - 2 = (a :: b :: mid).length := by simp
  have hsplit1 : a :: b :: (mid ++ [d, o]) = (a :: b :: (mid ++ [d])) ++ o :: [] := by simp
  have hsplit2 : a :: b :: (mid ++ [d, o]) = (a :: b :: mid) ++ d :: [o] := by simp
  refine ⟨?_, ?_, ?_, ?_, ?_⟩
  · rw [hlen]
    simp
  · exact hlen.symm
  · intro i hi
    rw [hlen] at hi
    simp only [List.getElem?_cons_succ]
    rw [List.getElem?_append_left hi]
  · intro x hx
    rw [hlast] at hx
    nth_rewrite 1 [hsplit1] at hx
    rw [getElem?_mid] at hx
    simp only [Option.some.injEq] at hx
    rw [← hx]
    simp
  · intro y hy
    rw [hprev] at hy
    nth_rewrite 1 [hsplit2] at hy
    rw [getElem?_mid] at hy
    simp only [Option.some.injEq] at hy
    rw [← hy]

/-- Witness for C13: a value with six fields, two of them parameters. -/
theorem C13_reset_field_layout_witness :
    4 ≤ (textEngine.ParseIntoArray "relay1,Trigger,,a,2,1").length ∧
    logicOutputOfPair textEngine "OnTrigger" "relay1,Trigger,,a,2,1" =
      .ok (some { TargetName := "relay1", OutputName := "OnTrigger", InputName := "Trigger",
                  Delay := 2, Once := true, Params := ["", "a"] }) ∧
    ∃ lo, logicOutputOfPair textEngine "OnTrigger" "relay1,Trigger,,a,2,1" = .ok (some lo) ∧
      lo.Params.length = (textEngine.ParseIntoArray "relay1,Trigger,,a,2,1").length - 4 := by
  refine ⟨by decide, by decide, ?_⟩
  obtain ⟨lo, h1, _, h3, _⟩ :=
    C13_reset_field_layout textEngine "OnTrigger" "relay1,Trigger,,a,2,1" (by decide)
  exact ⟨lo, h1, h3⟩

/-- C14, as the code has it.  When the value of a pair splits into at least
four fields, the connection built for the pair has `TargetName` equal to
`Trim` of the first field, `InputName` equal to `Trim` of the second field and
`OutputName` equal to the key. -/
theorem C14_reset_names_trimmed (eng : Engine) (k : FName) (v : String)
    (h : 4 ≤ (eng.ParseIntoArray v).length) :
    ∃ lo, logicOutputOfPair eng k v = .ok (some lo) ∧
      (∀ x, (eng.ParseIntoArray v)[0]? = some x → lo.TargetName = eng.Trim x) ∧
      (∀ y, (eng.ParseIntoArray v)[1]? = some y → lo.InputName = eng.Trim y) ∧
      lo.OutputName = k := by
  obtain ⟨a, b, mid, d, o, hf⟩ := fields_split _ h
  refine ⟨_, logicOutputOfPair_fields eng k v a b mid d o hf, ?_, ?_, rfl⟩
  · intro x hx
    rw [hf] at hx
    simp only [List.getElem?_cons_zero, Option.some.injEq] at hx
    rw [← hx]
  · intro y hy
    rw [hf] at hy
    simp only [List.getElem?_cons_succ, List.getElem?_cons_zero, Option.some.injEq] at hy
    rw [← hy]

/-- Witness for C14: fields written with a blank in front. -/
theorem C14_reset_names_trimmed_witness :
    4 ≤ (textEngine.ParseIntoArray " relay1, Trigger,0,-1").length ∧
    ∃ lo, logicOutputOfPair textEngine "OnTrigger" " relay1, Trigger,0,-1" = .ok (some lo) ∧
      lo.TargetName = "relay1" ∧ lo.InputName = "Trigger" ∧ lo.OutputName = "OnTrigger" := by
  refine ⟨by decide, ?_⟩
  obtain ⟨lo, h1, h2, h3, h4⟩ :=
    C14_reset_names_trimmed textEngine "OnTrigger" " relay1, Trigger,0,-1" (by decide)
  exact ⟨lo, h1, h2 " relay1" (by decide), h3 " Trigger" (by decide), h4⟩

/-- C14 as stated fails: the value ` relay1, Trigger,0,-1` has the four fields
` relay1`, ` Trigger`, `0`, `-1`, and the connection built for it has
`TargetName = relay1` and `InputName = Trigger`, which are not the first and
the second field. -/
theorem C14_fields_not_kept_counterexample :
    textEngine.ParseIntoArray " relay1, Trigger,0,-1" = [" relay1", " Trigger", "0", "-1"] ∧
    ∃ lo, logicOutputOfPair textEngine "OnTrigger" " relay1, Trigger,0,-1" = .ok (some lo) ∧
      lo.TargetName ≠ " relay1" ∧ lo.InputName ≠ " Trigger" := by
  refine ⟨by decide, _, rfl, by decide, by decide⟩

/-- C15.  Reset skips malformed pairs and replaces the store.  For given
key/value pairs there is one list `L` such that `ResetLogicOutputs` returns,
from every state, that state with the store of the entity set to `L`.  `L` has
exactly one connection, built from that pair, for every pair whose value has at
least four fields, in the order of the pairs, and nothing else.  Hence the
result does not depend on the prior store, the stores of other entities are
untouched, a second reset changes nothing, and a reset after a `FireOutput`
that consumed one-shot connections gives the same store again. -/
theorem C15_reset_replaces_store (eng : Engine) (KeyValues : List (FName × String)) :
    ∃ L : List FEntityLogicOutput,
      (∀ (self : EntityId) (s : State),
        ResetLogicOutputs eng KeyValues self s = .ok (s.setLogicOutputs self L)) ∧
      List.Forall₂ (fun pair lo => logicOutputOfPair eng pair.1 pair.2 = .ok (some lo))
        (KeyValues.filter (wellFormed eng)) L ∧
      L.length = KeyValues.countP (wellFormed eng) ∧
      (∀ (self : EntityId) (s : State), (s.setLogicOutputs self L).world.LogicOutputs self = L ∧
        ∀ e, e ≠ self →
          (s.setLogicOutputs self L).world.LogicOutputs e = s.world.LogicOutputs e) ∧
      (∀ (self : EntityId) (s t : State), ResetLogicOutputs eng KeyValues self s = .ok t →
        ∃ u, ResetLogicOutputs eng KeyValues self t = .ok u ∧
          u.world.LogicOutputs = t.world.LogicOutputs) ∧
      (∀ (find : NameIndex) (fuel : Nat) (self : EntityId) (n : FName) (args : List String)
          (c a : Option EntityId) (s t : State) (r : Nat),
        FireOutput find fuel self n args c a s = .ok (r, t) →
        ∃ u, ResetLogicOutputs eng KeyValues self t = .ok u ∧
          u.world.LogicOutputs self = L) := by
  obtain ⟨L, hL, hrel⟩ := resetLoop_total eng KeyValues
  have hreset : ∀ (self : EntityId) (s : State),
      ResetLogicOutputs eng KeyValues self s = .ok (s.setLogicOutputs self L) := by
    intro self s
    have := hL []
    simp only [List.nil_append] at this
    simp [ResetLogicOutputs, this]
  have hstore : ∀ (self : EntityId) (s : State),
      (s.setLogicOutputs self L).world.LogicOutputs self = L := by
    intro self s
    simp [State.setLogicOutputs]
  refine ⟨L, hreset, hrel, ?_, ?_, ?_, ?_⟩
  · rw [List.countP_eq_length_filter]
    exact hrel.length_eq.symm
  · intro self s
    refine ⟨hstore self s, ?_⟩
    intro e he
    simp [State.setLogicOutputs, he]
  · intro self s t ht
    rw [hreset] at ht
    simp only [Except.ok.injEq] at ht
    refine ⟨_, hreset self t, ?_⟩
    rw [← ht]
    funext e
    simp only [State.setLogicOutputs]
    split <;> rfl
  · intro find fuel self n args c a s t r _
    exact ⟨_, hreset self t, hstore self t⟩

/-- Witness for C15: `sampleKeyValues` holds one well-formed pair; resetting
`trigger1` after it has fired `X` from `threeOnXStart` gives the one connection
of that pair. -/
theorem C15_reset_replaces_store_witness :
    FireOutput scenarioIndex 1 trigger1 "X" [] none none threeOnXStart =
        .ok (0, threeOnXFired) ∧
    ResetLogicOutputs textEngine sampleKeyValues trigger1 threeOnXStart =
        .ok (threeOnXStart.setLogicOutputs trigger1 [triggerConnection]) ∧
    ∃ u, ResetLogicOutputs textEngine sampleKeyValues trigger1 threeOnXFired = .ok u ∧
      u.world.LogicOutputs trigger1 = [triggerConnection] := by
  obtain ⟨L, h1, _, _, _, _, h6⟩ := C15_reset_replaces_store textEngine sampleKeyValues
  have hrun : FireOutput scenarioIndex 1 trigger1 "X" [] none none threeOnXStart =
      .ok (0, threeOnXFired) := rfl
  have hconc : ResetLogicOutputs textEngine sampleKeyValues trigger1 threeOnXStart =
      .ok (threeOnXStart.setLogicOutputs trigger1 [triggerConnection]) := by
    have hloop : resetLoop textEngine sampleKeyValues [] = .ok [triggerConnection] := by
      decide
    simp only [ResetLogicOutputs, hloop]
  have hL : L = [triggerConnection] := by
    have h := (h1 trigger1 threeOnXStart).symm.trans hconc
    simp only [Except.ok.injEq] at h
    have h2 := congrArg (fun st : State => st.world.LogicOutputs trigger1) h
    simpa [State.setLogicOutputs] using h2
  obtain ⟨u, hu, hstore⟩ := h6 scenarioIndex 1 trigger1 "X" [] none none threeOnXStart
    threeOnXFired 0 hrun
  exact ⟨hrun, hconc, u, hu, by rw [hstore, hL]⟩

/-- C16 (code defect in the last part).  A `FireOutput` that returns gives the
number of `FireInput` calls, one per collected output and resolved target,
that reported handled, which is at most the number of those calls.  When no
entry passes the scan test the call returns 0, records only its own
activation and leaves the world as it was.  When every collected output
resolves to no target and the runtime arguments do not outnumber the stored
parameters of any collected output, it returns 0 and calls nothing.  But with
more runtime arguments than stored parameters the call does not return: for
the store `threeOnX`, whose targets the scenario index does not know, firing
`X` with one argument ends in the out-of-range read of the argument
preparation. -/
theorem C16_handled_count :
    (∀ (find : NameIndex) (fuel : Nat) (self : EntityId) (n : FName) (args : List String)
        (c a : Option EntityId) (s t : State) (r : Nat),
      FireOutput find (fuel + 1) self n args c a s = .ok (r, t) →
      ∃ log, loopOutcomes find (FireInput find fuel) self args c a
            ((s.world.LogicOutputs self).filter (scanTest n)).reverse
            ((s.record (Call.output self n args c a)).setLogicOutputs self
              ((s.world.LogicOutputs self).filter (survives n))) = .ok (log, t) ∧
        r = handledCount log ∧ r ≤ log.length) ∧
    (∀ (find : NameIndex) (fuel : Nat) (self : EntityId) (n : FName) (args : List String)
        (c a : Option EntityId) (s : State),
      (∀ lo ∈ s.world.LogicOutputs self, scanTest n lo = false) →
      ∃ t, FireOutput find (fuel + 1) self n args c a s = .ok (0, t) ∧
        t.trace = s.trace ++ [Call.output self n args c a] ∧
        t.world.LogicOutputs = s.world.LogicOutputs ∧
        t.world.Destroyed = s.world.Destroyed) ∧
    (∀ (find : NameIndex) (fuel : Nat) (self : EntityId) (n : FName) (args : List String)
        (c a : Option EntityId) (s : State),
      (∀ lo ∈ ((s.world.LogicOutputs self).filter (scanTest n)).reverse,
        resolveTargets find
          ((s.record (Call.output self n args c a)).setLogicOutputs self
            ((s.world.LogicOutputs self).filter (survives n))).world
          self c a lo.TargetName = [] ∧ args.length ≤ lo.Params.length) →
      FireOutput find (fuel + 1) self n args c a s =
        .ok (0, (s.record (Call.output self n args c a)).setLogicOutputs self
          ((s.world.LogicOutputs self).filter (survives n)))) ∧
    ((∀ lo ∈ threeOnX, ∀ w, resolveTargets scenarioIndex w trigger1 none none lo.TargetName = []) ∧
      ∀ fuel, FireOutput scenarioIndex (fuel + 1) trigger1 "X" ["p"] none none threeOnXStart =
        .error Fault.outOfRange) := by
  refine ⟨?_, ?_, ?_, ?_, ?_⟩
  · intro find fuel self n args c a s t r h
    rw [FireOutput_eq_fireLoop, fireLoop_outcomes] at h
    cases hq : loopOutcomes find (FireInput find fuel) self args c a
        ((s.world.LogicOutputs self).filter (scanTest n)).reverse
        ((s.record (Call.output self n args c a)).setLogicOutputs self
          ((s.world.LogicOutputs self).filter (survives n))) with
    | error x => rw [hq] at h; cases h
    | ok v =>
      obtain ⟨log, t1⟩ := v
      rw [hq] at h
      simp only [Except.ok.injEq, Prod.mk.injEq, Nat.zero_add] at h
      refine ⟨log, by rw [h.2], h.1.symm, ?_⟩
      rw [← h.1]
      exact List.countP_le_length _
  · intro find fuel self n args c a s hnone
    have hf : (s.world.LogicOutputs self).filter (scanTest n) = [] :=
      List.filter_eq_nil_iff.2 (fun lo hlo => by simp [hnone lo hlo])
    have hs : (s.world.LogicOutputs self).filter (survives n) = s.world.LogicOutputs self :=
      List.filter_eq_self.2 (fun lo hlo => by simp [survives, hnone lo hlo])
    refine ⟨(s.record (Call.output self n args c a)).setLogicOutputs self
      (s.world.LogicOutputs self), ?_, ?_, ?_, ?_⟩
    · rw [FireOutput_eq_fireLoop, hf, hs]
      rfl
    · rfl
    · funext e
      simp only [State.setLogicOutputs, State.record]
      split
      · next he => rw [he]
      · rfl
    · rfl
  · intro find fuel self n args c a s h
    rw [FireOutput_eq_fireLoop]
    exact (fireLoop_no_targets find _ self args c a _ _ (fun lo hlo => (h lo hlo).1) 0).2
      (fun lo hlo => (h lo hlo).2)
  · intro lo hlo w
    simp only [threeOnX, List.mem_cons, List.mem_singleton, List.not_mem_nil, or_false] at hlo
    rcases hlo with h | h | h <;> rw [h] <;> rfl
  · intro fuel
    rfl

/-- Witness for C16: in `threeOnXStart` firing `X` without arguments collects
three outputs whose targets are unknown; firing `Y` collects nothing. -/
theorem C16_handled_count_witness :
    FireOutput scenarioIndex 1 trigger1 "X" [] none none threeOnXStart =
        .ok (0, threeOnXFired) ∧
    ∃ t, FireOutput scenarioIndex 1 trigger1 "Y" [] none none threeOnXStart = .ok (0, t) ∧
      t.trace = threeOnXStart.trace ++ [Call.output trigger1 "Y" [] none none] ∧
      t.world.LogicOutputs = threeOnXStart.world.LogicOutputs ∧
      t.world.Destroyed = threeOnXStart.world.Destroyed :=
  ⟨C16_handled_count.2.2.1 scenarioIndex 0 trigger1 "X" [] none none threeOnXStart
      (by decide),
    C16_handled_count.2.1 scenarioIndex 0 trigger1 "Y" [] none none threeOnXStart
      (by decide)⟩

theorem fireLoop_append (find : NameIndex) (g : InputFn) (self : EntityId)
    (args : List String) (c a : Option EntityId) (xs ys : List FEntityLogicOutput)
    (result : Nat) (s : State) :
    fireLoop find g self args c a (xs ++ ys) result s =
      match fireLoop find g self args c a xs result s with
      | .error e => .error e
      | .ok (r1, s1) => fireLoop find g self args c a ys r1 s1 := by
  induction xs generalizing result s with
  | nil => rfl
  | cons lo rest ih =>
    rw [List.cons_append, fireLoop, fireLoop]
    cases hp : prepareArguments lo.Params args with
    | error x => rfl
    | ok arguments =>
      simp only []
      cases hq : fireTargets g self lo.InputName arguments c
          (resolveTargets find s.world self c a lo.TargetName) result s with
      | error x => rfl
      | ok v =>
        obtain ⟨r1, s1⟩ := v
        exact ih r1 s1

/-- C17, as the code has it.  The collected outputs are fired in the order of
collection, which is the reverse of their order in the store: when the store
is `front ++ back`, `FireOutput` first runs the firing loop over what was
collected from `back`, latest entry first, and only then over what was
collected from `front`; within each part the same holds again. -/
theorem C17_fires_in_reverse_order (find : NameIndex) (fuel : Nat) (self : EntityId)
    (n : FName) (args : List String) (c a : Option EntityId) (s : State)
    (front back : List FEntityLogicOutput) (h : s.world.LogicOutputs self = front ++ back) :
    FireOutput find (fuel + 1) self n args c a s =
      match fireLoop find (FireInput find fuel) self args c a
          (back.filter (scanTest n)).reverse 0
          ((s.record (Call.output self n args c a)).setLogicOutputs self
            ((front ++ back).filter (survives n))) with
      | .error e => .error e
      | .ok (r1, s1) =>
        fireLoop find (FireInput find fuel) self args c a
          (front.filter (scanTest n)).reverse r1 s1 := by
  rw [FireOutput_eq_fireLoop, h, List.filter_append, List.reverse_append, fireLoop_append]

/-- Witness for C17: `trigger1` holds `xToCaller` before `xToActivator`. -/
theorem C17_fires_in_reverse_order_witness :
    FireOutput scenarioIndex 1 trigger1 "X" [] (some bystander) (some player) orderStart =
      match fireLoop scenarioIndex (FireInput scenarioIndex 0) trigger1 [] (some bystander)
          (some player) ([xToActivator].filter (scanTest "X")).reverse 0
          ((orderStart.record
            (Call.output trigger1 "X" [] (some bystander) (some player))).setLogicOutputs
            trigger1 (([xToCaller] ++ [xToActivator]).filter (survives "X"))) with
      | .error e => .error e
      | .ok (r1, s1) =>
        fireLoop scenarioIndex (FireInput scenarioIndex 0) trigger1 [] (some bystander)
          (some player) ([xToCaller].filter (scanTest "X")).reverse r1 s1 :=
  C17_fires_in_reverse_order scenarioIndex 0 trigger1 "X" [] (some bystander) (some player)
    orderStart [xToCaller] [xToActivator] rfl

/-- C17 as stated fails: `trigger1` holds `xToCaller` (target `bystander`)
before `xToActivator` (target `player`); firing `X` calls `FireInput` on
`player` first and on `bystander` second. -/
theorem C17_forward_order_counterexample :
    orderStart.world.LogicOutputs trigger1 = [xToCaller, xToActivator] ∧
    observe trigger1
        (FireOutput scenarioIndex 1 trigger1 "X" [] (some bystander) (some player)
          orderStart) =
      .ok (2,
        [Call.output trigger1 "X" [] (some bystander) (some player),
         Call.input player "X" [] (some trigger1) (some bystander),
         Call.hook player "X" [] (some trigger1) (some bystander),
         Call.input bystander "X" [] (some trigger1) (some bystander),
         Call.hook bystander "X" [] (some trigger1) (some bystander)],
        [xToCaller, xToActivator], []) := by
  exact ⟨rfl, rfl⟩

/-- C18 (code defect).  No dispatch nests more than two `FireOutput`
activations: with room for two, `FireOutput` never runs out of depth, whatever
the world, the name index and the arguments are.  The reason is the scan test
on `InputName`: the inputs issued by `FireOutput(n)` carry the name `n`, and
the dispatch restarted by `FireUserN` fires `OnUserN`, which restarts nothing.
In particular the entity wired to itself by `selfLoop` returns at once: firing
`OnUser1` collects nothing, and firing `FireUser1` makes one nested dispatch
that collects nothing. -/
theorem C18_nesting_is_bounded :
    (∀ (find : NameIndex) (fuel : Nat) (self : EntityId) (n : FName) (args : List String)
        (c a : Option EntityId) (s : State),
      FireOutput find (fuel + 2) self n args c a s ≠ .error Fault.outOfFuel) ∧
    (∀ fuel, observe relay1
        (FireOutput scenarioIndex (fuel + 1) relay1 "OnUser1" [] none none selfLoopStart) =
      .ok (0, [Call.output relay1 "OnUser1" [] none none], [selfLoop], [])) ∧
    (∀ fuel, observe relay1
        (FireOutput scenarioIndex (fuel + 2) relay1 "FireUser1" [] none none selfLoopStart) =
      .ok (1,
        [Call.output relay1 "FireUser1" [] none none,
         Call.input relay1 "FireUser1" [] (some relay1) none,
         Call.output relay1 "OnUser1" [] (some relay1) (some relay1)],
        [selfLoop], [])) := by
  refine ⟨FireOutput_depth_two, fun _ => rfl, fun _ => rfl⟩

theorem fireTargets_addOutput (f : OutputFn) (self : EntityId) (arguments : List String)
    (c : Option EntityId) (targets : List EntityId) (result : Nat) (s : State) :
    ∃ t, fireTargets (FireInputWith f) self inAddOutput arguments c targets result s =
      .ok (result, t) ∧ t.world = s.world := by
  induction targets generalizing s with
  | nil => exact ⟨s, rfl, rfl⟩
  | cons e rest ih =>
    have hcall : FireInputWith f e inAddOutput arguments (some self) c s =
        .ok (false, s.record (Call.input e inAddOutput arguments (some self) c)) := rfl
    obtain ⟨t, ht, hw⟩ := ih (s.record (Call.input e inAddOutput arguments (some self) c))
    refine ⟨t, ?_, hw⟩
    rw [fireTargets, hcall]
    exact ht

/-- C19.  One-shot consumption does not depend on delivery.  The store the
scan leaves is `L` without the entries that pass the test and have `Once` set,
whatever the caller, the activator and the name index are, and the firing loop
starts from that store.  When every collected output resolves to no target,
and also when the fired name is `AddOutput` (every target then reports not
handled), a `FireOutput` that returns gives 0 and leaves exactly that store on
the firing entity; it does return when the runtime arguments do not outnumber
the stored parameters of any entry. -/
theorem C19_consumed_without_delivery (find : NameIndex) (fuel : Nat) (self : EntityId)
    (n : FName) (args : List String) (c a : Option EntityId) (s : State) :
    gather n (s.world.LogicOutputs self) =
      .ok ((s.world.LogicOutputs self).filter (survives n),
        ((s.world.LogicOutputs self).filter (scanTest n)).reverse) ∧
    FireOutput find (fuel + 1) self n args c a s =
      fireLoop find (FireInput find fuel) self args c a
        ((s.world.LogicOutputs self).filter (scanTest n)).reverse 0
        ((s.record (Call.output self n args c a)).setLogicOutputs self
          ((s.world.LogicOutputs self).filter (survives n))) ∧
    (∀ lo ∈ s.world.LogicOutputs self, scanTest n lo = true → lo.Once = true →
      lo ∉ (s.world.LogicOutputs self).filter (survives n)) ∧
    (((∀ lo ∈ ((s.world.LogicOutputs self).filter (scanTest n)).reverse,
        resolveTargets find
          ((s.record (Call.output self n args c a)).setLogicOutputs self
            ((s.world.LogicOutputs self).filter (survives n))).world
          self c a lo.TargetName = []) ∨ n = "AddOutput") →
      (∀ r t, FireOutput find (fuel + 1) self n args c a s = .ok (r, t) →
        r = 0 ∧
        t.world.LogicOutputs self = (s.world.LogicOutputs self).filter (survives n)) ∧
      ((∀ lo ∈ s.world.LogicOutputs self, args.length ≤ lo.Params.length) →
        ∃ t, FireOutput find (fuel + 1) self n args c a s = .ok (0, t) ∧
          t.world.LogicOutputs self = (s.world.LogicOutputs self).filter (survives n))) := by
  refine ⟨gather_eq n _, FireOutput_eq_fireLoop find fuel self n args c a s, ?_, ?_⟩
  · intro lo _ ht ho hmem
    have := (List.mem_filter.1 hmem).2
    simp [survives, ht, ho] at this
  · intro hcase
    have hstore : ((s.record (Call.output self n args c a)).setLogicOutputs self
        ((s.world.LogicOutputs self).filter (survives n))).world.LogicOutputs self =
        (s.world.LogicOutputs self).filter (survives n) := by
      simp [State.setLogicOutputs]
    have hfit : (∀ lo ∈ s.world.LogicOutputs self, args.length ≤ lo.Params.length) →
        ∀ lo ∈ ((s.world.LogicOutputs self).filter (scanTest n)).reverse,
          args.length ≤ lo.Params.length :=
      fun h lo hlo => h lo (List.mem_filter.1 (List.mem_reverse.1 hlo)).1
    rw [FireOutput_eq_fireLoop]
    rcases hcase with hempty | hadd
    · have hq := fireLoop_no_targets find (FireInput find fuel) self args c a _ _ hempty 0
      constructor
      · intro r t h
        obtain ⟨hr, ht⟩ := hq.1 r t h
        exact ⟨hr, by rw [ht]; exact hstore⟩
      · intro h
        exact ⟨_, hq.2 (hfit h), hstore⟩
    · subst hadd
      have hq := fireLoop_quiet find (FireInput find fuel) self args c a
        ((s.record (Call.output self "AddOutput" args c a)).setLogicOutputs self
          ((s.world.LogicOutputs self).filter (survives "AddOutput"))).world
        ((s.world.LogicOutputs self).filter (scanTest "AddOutput")).reverse
        (by
          intro lo hlo arguments result s1 hs1
          rw [collected_name _ _ lo hlo]
          obtain ⟨t, ht, hw⟩ := fireTargets_addOutput (FireOutput find fuel) self arguments c
            (resolveTargets find s1.world self c a lo.TargetName) result s1
          exact ⟨t, ht, by rw [hw, hs1]⟩)
        0 _ rfl
      constructor
      · intro r t h
        obtain ⟨hr, hw⟩ := hq.1 r t h
        exact ⟨hr, by rw [hw]; exact hstore⟩
      · intro h
        obtain ⟨t, ht, hw⟩ := hq.2 (hfit h)
        exact ⟨t, ht, by rw [hw]; exact hstore⟩

/-- Witness for C19: in `threeOnXStart` the targets are unknown to the index;
in `addOutputStart` the one-shot connection delivers `AddOutput` to the entity
itself.  Both times the count is 0 and the one-shot entries are gone. -/
theorem C19_consumed_without_delivery_witness :
    (∃ t, FireOutput scenarioIndex 1 trigger1 "X" [] none none threeOnXStart = .ok (0, t) ∧
      t.world.LogicOutputs trigger1 = [xKeepB]) ∧
    (∃ t, FireOutput scenarioIndex 1 trigger1 "AddOutput" [] none none addOutputStart =
        .ok (0, t) ∧
      t.world.LogicOutputs trigger1 = [xKeepB]) :=
  ⟨(((C19_consumed_without_delivery scenarioIndex 0 trigger1 "X" [] none none
      threeOnXStart).2.2.2 (Or.inl (by decide))).2 (by decide)),
    (((C19_consumed_without_delivery scenarioIndex 0 trigger1 "AddOutput" [] none none
      addOutputStart).2.2.2 (Or.inr rfl)).2 (by decide))⟩

end HL2Runtime
